import Mathlib

/-!
Verification of the meetingSTT diarization/transcription pipeline.

The definitions below are shallow embeddings of the Python sources:
  * `main.py` (`diarize_and_transcribe`, `segment_audio_from_diarization`),
  * `diarization_service/transcription.py`
    (`diarize_and_transcribe_audio_segments`, `segment_audio_from_diarization`),
  * `ui_client/api.py` (`summarize_meeting_endpoint`, merge loop).
Time values are modelled by exact rationals, Python strings by `String`,
fallible external calls (models, tensor conversion) by `Option`-valued
oracles.  Definitions named `*_spec` are NOT translated from the code: they
transcribe the specification's description of an attribution procedure, for
comparison against the code's actual behaviour.

The file is organised as: definitions first, then theorems.
-/

namespace MeetingSTT

/-! ## Definitions -/

/-- Whitespace characters stripped by Python's `str.strip()` (the ASCII
whitespace set; the pipeline's strings never contain other Unicode space). -/
def isWS (c : Char) : Bool :=
  c = ' ' || c = '\t' || c = '\n' || c = '\r' || c = '\x0b' || c = '\x0c'

/-- Drop trailing whitespace from a character list (back half of `strip()`). -/
def dropEndWS : List Char → List Char
  | [] => []
  | c :: t =>
    let r := dropEndWS t
    if r = [] then (if isWS c then [] else [c]) else c :: r

/-- `str.strip()` on the character list: leading then trailing whitespace. -/
def stripL (l : List Char) : List Char :=
  dropEndWS (l.dropWhile isWS)

/-- Python's `str.strip()`. -/
def strip (s : String) : String :=
  ⟨stripL s.data⟩

/-- `l` is empty or starts with a non-whitespace character. -/
def okHead (l : List Char) : Prop :=
  ∀ h, l.head? = some h → isWS h = false

/-- `l` is empty or ends with a non-whitespace character. -/
def okLast (l : List Char) : Prop :=
  ∀ h, l.getLast? = some h → isWS h = false

/-- A string contains at least one non-whitespace character. -/
def hasNonWS (s : String) : Prop :=
  ∃ c ∈ s.data, isWS c = false

/-! ### Transcribed segments and the merge loop

`main.py` lines 157-170 build dicts `{"speaker", "transcription", "start",
"end"}`; `transcription.py` lines 185-198 build `{"speaker", "text",
"start_time", "end_time"}`.  Both shapes are embedded as `TSeg` (`text`
standing for `transcription`, `stop` for the reserved word `end`). -/

structure TSeg where
  speaker : String
  text : String
  start : ℚ
  stop : ℚ
deriving DecidableEq, Repr

/-- The mutable state of the merge loop: `final_transcription`,
`current_speaker` (None at first), `speaker_utterance`. -/
structure MState where
  acc : String
  cur : Option String
  utt : String
deriving DecidableEq

/-- One iteration of the merge loop, shared by `main.py` lines 177-192 and
`ui_client/api.py` lines 317-328.  The two differ only in what they append:
`main.py` first strips the unit text (`transcription = result["transcription"]
.strip()`) and skips on `not transcription or speaker == "ERROR"`, while the
UI client appends `seg['text']` verbatim and skips on `speaker == "ERROR" or
not seg.get('text')`.  Both are instances of this step with `prep := strip`
resp. `prep := id`. -/
def merge_step (prep : String → String) (st : MState) (r : TSeg) : MState :=
  let t := prep r.text
  if t = "" ∨ r.speaker = "ERROR" then st
  else
    match st.cur with
    | none => { st with cur := some r.speaker, utt := st.utt ++ t ++ " " }
    | some c =>
      if r.speaker = c then { st with utt := st.utt ++ t ++ " " }
      else
        { acc := st.acc ++ c ++ ": " ++ strip st.utt ++ "\n",
          cur := some r.speaker,
          utt := t ++ " " }

/-- The trailing flush (`if current_speaker and speaker_utterance.strip():`)
followed by the final `.strip()` of the accumulated transcription. -/
def merge_finish (st : MState) : String :=
  match st.cur with
  | none => strip st.acc
  | some c =>
    if c ≠ "" ∧ strip st.utt ≠ "" then
      strip (st.acc ++ c ++ ": " ++ strip st.utt ++ "\n")
    else strip st.acc

def merge_fold (prep : String → String) (rs : List TSeg) : String :=
  merge_finish (rs.foldl (merge_step prep) ⟨"", none, ""⟩)

/-- The merge loop of `main.py` `diarize_and_transcribe`, lines 172-198. -/
def format_final_transcription (rs : List TSeg) : String :=
  merge_fold strip rs

/-- The merge loop of `ui_client/api.py` `summarize_meeting_endpoint`,
lines 314-332 (builds `full_transcription_text`). -/
def build_full_transcription_text (rs : List TSeg) : String :=
  merge_fold id rs

/-- Units kept (not skipped) by the `main.py` merge loop. -/
def kept_main (r : TSeg) : Bool :=
  !(strip r.text == "" || r.speaker == "ERROR")

/-- Units kept (not skipped) by the `ui_client/api.py` merge loop. -/
def kept_api (r : TSeg) : Bool :=
  !(r.text == "" || r.speaker == "ERROR")

/-- Ghost companion of the merge loop: the same control flow, recording each
flushed `(speaker, stripped utterance)` pair instead of rendering it. -/
structure GState where
  flushed : List (String × String)
  cur : Option String
  utt : String

def merge_step_utts (prep : String → String) (st : GState) (r : TSeg) : GState :=
  let t := prep r.text
  if t = "" ∨ r.speaker = "ERROR" then st
  else
    match st.cur with
    | none => { st with cur := some r.speaker, utt := st.utt ++ t ++ " " }
    | some c =>
      if r.speaker = c then { st with utt := st.utt ++ t ++ " " }
      else
        { flushed := st.flushed ++ [(c, strip st.utt)],
          cur := some r.speaker,
          utt := t ++ " " }

def merge_utts_finish (st : GState) : List (String × String) :=
  match st.cur with
  | none => st.flushed
  | some c =>
    if c ≠ "" ∧ strip st.utt ≠ "" then st.flushed ++ [(c, strip st.utt)]
    else st.flushed

/-- The utterances flushed by `merge_fold prep`. -/
def merge_utts (prep : String → String) (rs : List TSeg) : List (String × String) :=
  merge_utts_finish (rs.foldl (merge_step_utts prep) ⟨[], none, ""⟩)

/-- A merge state that is guaranteed to render to a non-empty string: either
the accumulated transcription already holds a non-whitespace character, or a
non-empty current speaker holds an utterance with one. -/
def merge_live (st : MState) : Prop :=
  hasNonWS st.acc ∨ ∃ c, st.cur = some c ∧ c ≠ "" ∧ hasNonWS st.utt

/-- The raw accumulated rendering `"{speaker}: {text}\n"` per utterance, as
built up in `final_transcription` / `full_transcription_text`. -/
def render_lines : List (String × String) → String
  | [] => ""
  | u :: us => (u.1 ++ ": " ++ u.2 ++ "\n") ++ render_lines us

/-- Join a list of strings with a separator (no leading/trailing copy). -/
def joinSep (sep : String) : List String → String
  | [] => ""
  | [t] => t
  | t :: ts => t ++ sep ++ joinSep sep ts

/-- Newline-join without trailing newline. -/
def joinNl (ls : List String) : String :=
  joinSep "\n" ls

/-- Space-join ("space-joined concatenation" of the unit texts). -/
def joinSp (ts : List String) : String :=
  joinSep " " ts

/-- `t1 ++ " " ++ t2 ++ " " ++ ... ++ tn ++ " "`: the form the utterance
accumulator takes after appending each text plus `" "`. -/
def trailStr : List String → String
  | [] => ""
  | t :: ts => t ++ " " ++ trailStr ts

/-! ### Diarization turns and the pyannote collaborator model

A pyannote `Annotation` is modelled as a stored-order list of labelled turns.
`crop(segment).labels()` keeps the turns having a positive-length
intersection with the segment (pyannote's `intersection` crop mode) and
returns their distinct labels sorted as strings (`Annotation.labels` returns
the sorted label set).  String sorting is modelled by a lexicographic
comparison on code points, matching Python string order. -/

structure Turn where
  speaker : String
  start : ℚ
  stop : ℚ
deriving DecidableEq, Repr

/-- `max(0, min(a.end, b.end) - max(a.start, b.start))`: seconds of
intersection of `[s1, e1]` and `[s2, e2]`. -/
def overlap_duration (s1 e1 s2 e2 : ℚ) : ℚ :=
  max 0 (min e1 e2 - max s1 s2)

/-- The turn has a positive-length intersection with the span `[s, e]`. -/
def turn_intersects (s e : ℚ) (t : Turn) : Bool :=
  decide (max t.start s < min t.stop e)

/-- Lexicographic order on code points (Python `<=` on these strings). -/
def strLeB : List Char → List Char → Bool
  | [], _ => true
  | _ :: _, [] => false
  | a :: as, b :: bs =>
    if a.toNat < b.toNat then true
    else if b.toNat < a.toNat then false
    else strLeB as bs

def labelLe (a b : String) : Bool :=
  strLeB a.data b.data

def labelRel (a b : String) : Prop :=
  labelLe a b = true

instance : DecidableRel labelRel := fun a b => inferInstanceAs (Decidable (_ = true))

instance : IsTotal String labelRel :=
  ⟨fun a b => by
    unfold labelRel labelLe
    generalize a.data = as
    generalize b.data = bs
    induction as generalizing bs with
    | nil => left; rfl
    | cons x xt ih =>
      cases bs with
      | nil => right; rfl
      | cons y yt =>
        rcases Nat.lt_trichotomy x.toNat y.toNat with h | h | h
        · left; simp [strLeB, h]
        · have h2 : ¬ x.toNat < y.toNat := by omega
          have h3 : ¬ y.toNat < x.toNat := by omega
          rcases ih yt with hc | hc
          · left; simp [strLeB, h2, h3, hc]
          · right; simp [strLeB, h2, h3, hc]
        · right; simp [strLeB, h]⟩

instance : IsTrans String labelRel :=
  ⟨fun a b c => by
    unfold labelRel labelLe
    generalize a.data = as
    generalize b.data = bs
    generalize c.data = cs
    intro h1 h2
    induction as generalizing bs cs with
    | nil => rfl
    | cons x xt ih =>
      cases bs with
      | nil => simp [strLeB] at h1
      | cons y yt =>
        cases cs with
        | nil => simp [strLeB] at h2
        | cons z zt =>
          simp only [strLeB] at h1 h2 ⊢
          rcases Nat.lt_trichotomy y.toNat x.toNat with hba | hba | hba
          · rw [if_neg (by omega), if_pos hba] at h1
            exact absurd h1 (by simp)
          · rcases Nat.lt_trichotomy z.toNat y.toNat with hcb | hcb | hcb
            · rw [if_neg (by omega), if_pos hcb] at h2
              exact absurd h2 (by simp)
            · rw [if_neg (by omega), if_neg (by omega)] at h1 h2 ⊢
              exact ih _ _ h1 h2
            · rw [if_pos (by omega)]
          · rcases Nat.lt_trichotomy z.toNat y.toNat with hcb | hcb | hcb
            · rw [if_neg (by omega), if_pos hcb] at h2
              exact absurd h2 (by simp)
            · rw [if_pos (by omega)]
            · rw [if_pos (by omega)]⟩

/-- `diarization.crop(Segment(start, end)).labels()`: the distinct labels of
the turns positively intersecting the span, in sorted string order. -/
def crop_labels (turns : List Turn) (s e : ℚ) : List String :=
  List.insertionSort labelRel (((turns.filter (turn_intersects s e)).map Turn.speaker).dedup)

/-- The `diarization.overlapping(...).labels()` fallback of `main.py` line 147
/ `transcription.py` line 175.  pyannote.core's `Annotation` exposes no
`overlapping` method, so this call raises and the surrounding handler yields
"UNKNOWN"; the fallback is reached only when the crop found no label, and
modelling it as the same (then empty) label set produces the identical
composite lookup result. -/
def overlapping_labels (turns : List Turn) (s e : ℚ) : List String :=
  crop_labels turns s e

/-- The inline speaker lookup for one transcribed segment, `main.py` lines
141-155 = `transcription.py` lines 169-183: first label of the crop, else
first overlapping label, else the "UNKNOWN" sentinel. -/
def speaker_for_segment (turns : List Turn) (s e : ℚ) : String :=
  match crop_labels turns s e with
  | spk :: _ => spk
  | [] =>
    match overlapping_labels turns s e with
    | spk :: _ => spk
    | [] => "UNKNOWN"

/-- Add `d` seconds to the accumulator entry of `sp` (insertion order kept). -/
def bump : List (String × ℚ) → String → ℚ → List (String × ℚ)
  | [], sp, d => [(sp, d)]
  | (k, v) :: rest, sp, d =>
    if k = sp then (k, v + d) :: rest else (k, v) :: bump rest sp d

/-- Modelled from the spec (§4.4b), NOT from the code: range attribution.
"Accumulate, across all diarization turns that intersect [start,end], the
overlap-duration per speaker label.  If the sum of all accumulated overlaps
is less than duration/2, OR no turn overlapped at all, assign sentinel
"SPEAKER_UNKNOWN".  Otherwise assign the speaker with the maximum accumulated
overlap; ties broken by insertion order." -/
def range_attribution_spec (turns : List Turn) (s e : ℚ) : String :=
  let acc := turns.foldl
    (fun a t =>
      let d := overlap_duration t.start t.stop s e
      if 0 < d then bump a t.speaker d else a) []
  let total := (acc.map Prod.snd).sum
  if acc = [] ∨ total < (e - s) / 2 then "SPEAKER_UNKNOWN"
  else
    match acc with
    | [] => "SPEAKER_UNKNOWN"
    | p :: rest => (rest.foldl (fun best q => if best.2 < q.2 then q else best) p).1

/-- Modelled from the spec (§4.2), NOT from the code: `speaker_over_span`.
"Returns the speaker of the turn with the largest total overlap-duration
against span; among equal-overlap ties, the first in stored ordering wins.
Returns a sentinel "UNKNOWN" label if no turn overlaps at all." -/
def speaker_over_span_spec (turns : List Turn) (s e : ℚ) : String :=
  match turns.filter (turn_intersects s e) with
  | [] => "UNKNOWN"
  | t :: rest =>
    (rest.foldl
      (fun best q =>
        if overlap_duration best.start best.stop s e <
            overlap_duration q.start q.stop s e then q
        else best) t).speaker

/-- Modelled from the spec (§4.4a), NOT from the code: point attribution.
"Compute mid = start + (end - start)/2; look up `speaker_at_point` on the
dilated interval [mid - ε, mid + ε] with ε = 1e-4 (first match in stored
ordering); if no speaker found, fall back to `speaker_over_span([start,
end])`; if still none, assign the sentinel "UNKNOWN" speaker." -/
def point_attribution_spec (turns : List Turn) (s e : ℚ) : String :=
  let mid := s + (e - s) / 2
  let eps : ℚ := 1 / 10000
  match turns.find? (turn_intersects (mid - eps) (mid + eps)) with
  | some t => t.speaker
  | none => speaker_over_span_spec turns s e

/-! ### Segmentation and the pipeline orchestrators

`diarization.get_timeline().support()` (pyannote) collapses the turns into
maximal contiguous covered intervals: sort by start, merge overlapping or
touching intervals.  The audio waveform is represented by its pydub length
in milliseconds; `audiosegment_to_tensor` and the GigaAM transcription are
external fallible calls, modelled as `Option`-valued oracles. -/

def support_go (s e : ℚ) : List Turn → List (ℚ × ℚ)
  | [] => [(s, e)]
  | t :: rest =>
    if t.start ≤ e then support_go s (max e t.stop) rest
    else (s, e) :: support_go t.start t.stop rest

/-- Model of pyannote `Annotation.get_timeline().support()`. -/
def timeline_support (turns : List Turn) : List (ℚ × ℚ) :=
  match List.insertionSort (fun a b : Turn => a.start ≤ b.start) turns with
  | [] => []
  | t :: rest => support_go t.start t.stop rest

/-- `segment_audio_from_diarization` (`main.py` lines 47-89 =
`transcription.py` lines 51-104) over the support intervals: clip to
`[0, len(audio)/1000]`, `continue` when `start >= end`, slice by
`int(start*1000) : int(end*1000)` (truncation = floor for these
non-negative values; pydub clamps the slice to the audio length), skip
empty chunks, convert via the `conv` oracle (skipping on failure), and
collect the parallel segment and boundary lists. -/
def segment_audio_from_diarization {α : Type} (conv : ℕ → ℕ → Option α)
    (audioMs : ℕ) : List (ℚ × ℚ) → List α × List (ℚ × ℚ)
  | [] => ([], [])
  | (s0, e0) :: rest =>
    let audio_duration_sec : ℚ := (audioMs : ℚ) / 1000
    let s := max 0 s0
    let e := min audio_duration_sec e0
    if e ≤ s then segment_audio_from_diarization conv audioMs rest
    else
      let start_ms := (⌊s * 1000⌋).toNat
      let end_ms := (⌊e * 1000⌋).toNat
      let chunk_ms := min end_ms audioMs - min start_ms audioMs
      if chunk_ms = 0 then segment_audio_from_diarization conv audioMs rest
      else
        match conv start_ms end_ms with
        | none => segment_audio_from_diarization conv audioMs rest
        | some seg =>
          (seg :: (segment_audio_from_diarization conv audioMs rest).1,
            (s, e) :: (segment_audio_from_diarization conv audioMs rest).2)

/-- Python `round(x, 3)` (round-half-to-even on the third decimal). -/
def roundHalfEven (x : ℚ) : ℤ :=
  if x - ⌊x⌋ < 1 / 2 then ⌊x⌋
  else if 1 / 2 < x - ⌊x⌋ then ⌊x⌋ + 1
  else if Even ⌊x⌋ then ⌊x⌋ else ⌊x⌋ + 1

def round3 (x : ℚ) : ℚ :=
  (roundHalfEven (x * 1000) : ℚ) / 1000

/-- The external world of one pipeline run.  Each field abstracts one
fallible call of `diarize_and_transcribe` /
`diarize_and_transcribe_audio_segments`. -/
structure Env (α : Type) where
  /-- `pyannote_wrapper.pipeline is None` is false. -/
  pipelineLoaded : Bool
  /-- `os.path.exists(audio_path)`. -/
  audioExists : Bool
  /-- `gigaam_model is None` is false. -/
  modelLoaded : Bool
  /-- `pyannote_wrapper.diarize(audio_path)`; `none` models a failed run. -/
  diarizeResult : Option (List Turn)
  /-- `load_audio(audio_path)`, reduced to the audio length in ms;
  `none` models the raised exception. -/
  audioLoad : Option ℕ
  /-- `audiosegment_to_tensor` on the chunk `[start_ms, end_ms]`. -/
  conv : ℕ → ℕ → Option α
  /-- GigaAM decode of segment `i`; `none` models the raised exception. -/
  transcribe : ℕ → Option String
  /-- The speaker-lookup `try` block of segment `i` raising. -/
  lookupRaises : ℕ → Bool

/-- The transcription loop of `main.py` lines 131-170: one `TSeg` per
segment; a raised transcription yields the `"ERROR"` placeholder unit, a
raised speaker lookup degrades the speaker to `"UNKNOWN"`. -/
def transcribe_segments {α : Type} (env : Env α) (diarization : List Turn)
    (boundaries : List (ℚ × ℚ)) : List TSeg :=
  boundaries.enum.map fun p =>
    match env.transcribe p.1 with
    | none => ⟨"ERROR", "[Transcription Error]", p.2.1, p.2.2⟩
    | some result =>
      ⟨if env.lookupRaises p.1 then "UNKNOWN"
        else speaker_for_segment diarization p.2.1 p.2.2,
        result, p.2.1, p.2.2⟩

/-- The transcription loop of `transcription.py` lines 159-198: as above but
the text is stripped and the times are `round(_, 3)`-ed. -/
def transcribe_segments_service {α : Type} (env : Env α) (diarization : List Turn)
    (boundaries : List (ℚ × ℚ)) : List TSeg :=
  boundaries.enum.map fun p =>
    match env.transcribe p.1 with
    | none => ⟨"ERROR", "[Transcription Error]", round3 p.2.1, round3 p.2.2⟩
    | some result =>
      ⟨if env.lookupRaises p.1 then "UNKNOWN"
        else speaker_for_segment diarization p.2.1 p.2.2,
        strip result, round3 p.2.1, round3 p.2.2⟩

/-- `main.py` `diarize_and_transcribe` (lines 92-198): `None` on each fatal
condition, `""` when no segments were produced, otherwise the merged
transcription. -/
def diarize_and_transcribe {α : Type} (env : Env α) : Option String :=
  if env.pipelineLoaded = false then none
  else if env.audioExists = false then none
  else if env.modelLoaded = false then none
  else
    match env.diarizeResult with
    | none => none
    | some diarization =>
      match env.audioLoad with
      | none => none
      | some audioMs =>
        let sb := segment_audio_from_diarization env.conv audioMs
          (timeline_support diarization)
        if sb.1.isEmpty then some ""
        else some (format_final_transcription
          (transcribe_segments env diarization sb.2))

/-- `transcription.py` `diarize_and_transcribe_audio_segments` (lines
106-201): `(None, error message)` on each fatal condition, `([], None)` when
no segments were produced, otherwise `(segments, None)`. -/
def diarize_and_transcribe_audio_segments {α : Type} (env : Env α) :
    Option (List TSeg) × Option String :=
  if env.pipelineLoaded = false then (none, some "Pyannote pipeline not loaded")
  else if env.audioExists = false then (none, some "Audio file not found")
  else if env.modelLoaded = false then (none, some "GigaAM model not loaded")
  else
    match env.diarizeResult with
    | none => (none, some "Diarization failed")
    | some diarization =>
      match env.audioLoad with
      | none => (none, some "Error loading audio tensor")
      | some audioMs =>
        let sb := segment_audio_from_diarization env.conv audioMs
          (timeline_support diarization)
        if sb.1.isEmpty then (some [], none)
        else (some (transcribe_segments_service env diarization sb.2), none)

/-- The fatal conditions of the pipeline: pipeline not loaded, audio file
missing, transcription model missing, the diarization call returning no
result, or audio-tensor loading failure. -/
def fatal_condition {α : Type} (env : Env α) : Prop :=
  env.pipelineLoaded = false ∨ env.audioExists = false ∨
  env.modelLoaded = false ∨ env.diarizeResult = none ∨ env.audioLoad = none

/-- Test fixture: a healthy environment with one turn and one segment. -/
def envW : Env Unit :=
  { pipelineLoaded := true, audioExists := true, modelLoaded := true,
    diarizeResult := some [⟨"S", 0, 2⟩], audioLoad := some 10000,
    conv := fun _ _ => some (), transcribe := fun _ => some "hello",
    lookupRaises := fun _ => false }

/-- Test fixture: a healthy environment whose diarization found no speech. -/
def envEmpty : Env Unit :=
  { pipelineLoaded := true, audioExists := true, modelLoaded := true,
    diarizeResult := some [], audioLoad := some 10000,
    conv := fun _ _ => some (), transcribe := fun _ => some "hello",
    lookupRaises := fun _ => false }

end MeetingSTT

namespace MeetingSTT

/-! ## Theorems -/

/-! ### String stripping -/

@[simp] theorem dropEndWS_nil : dropEndWS [] = [] := rfl

theorem data_append (a b : String) : (a ++ b).data = a.data ++ b.data := rfl

theorem string_eq_iff_data (a b : String) : a = b ↔ a.data = b.data := by
  constructor
  · intro h; rw [h]
  · intro h; cases a; cases b; exact congrArg String.mk h

@[simp] theorem data_empty : ("" : String).data = [] := rfl

theorem string_ne_empty_iff (s : String) : s ≠ "" ↔ s.data ≠ [] := by
  rw [ne_eq, string_eq_iff_data]

theorem dropEndWS_cons (a : Char) (t : List Char) :
    dropEndWS (a :: t) =
      if dropEndWS t = [] then (if isWS a then [] else [a]) else a :: dropEndWS t := rfl

/-- Appending a whitespace character does not change trailing-trim. -/
theorem dropEndWS_append_ws (l : List Char) (c : Char) (hc : isWS c = true) :
    dropEndWS (l ++ [c]) = dropEndWS l := by
  induction l with
  | nil => simp [dropEndWS_cons, hc]
  | cons h t ih => rw [List.cons_append, dropEndWS_cons, ih, dropEndWS_cons]

theorem getLast?_cons_ne_nil (a : Char) (t : List Char) (h : t ≠ []) :
    (a :: t).getLast? = t.getLast? := by
  cases t with
  | nil => exact absurd rfl h
  | cons b u => exact List.getLast?_cons_cons

theorem dropEndWS_eq_self (l : List Char) (h : okLast l) : dropEndWS l = l := by
  induction l with
  | nil => rfl
  | cons a t ih =>
    cases t with
    | nil =>
      have : isWS a = false := h a rfl
      simp [dropEndWS_cons, this]
    | cons b u =>
      have ht : okLast (b :: u) := by
        intro x hx
        apply h
        rw [List.getLast?_cons_cons]
        exact hx
      have hr := ih ht
      rw [dropEndWS_cons, hr]
      simp

theorem dropEndWS_head? (l : List Char) (h : dropEndWS l ≠ []) :
    (dropEndWS l).head? = l.head? := by
  cases l with
  | nil => rfl
  | cons a t =>
    rw [dropEndWS_cons] at h ⊢
    by_cases hr : dropEndWS t = []
    · by_cases ha : isWS a = true
      · exfalso; apply h; simp [hr, ha]
      · simp [hr, ha]
    · simp [hr]

theorem okLast_dropEndWS (l : List Char) : okLast (dropEndWS l) := by
  induction l with
  | nil => intro x hx; simp at hx
  | cons a t ih =>
    intro x hx
    rw [dropEndWS_cons] at hx
    by_cases hr : dropEndWS t = []
    · by_cases ha : isWS a = true
      · simp [hr, ha] at hx
      · simp [hr, ha] at hx
        rw [← hx]
        simpa using ha
    · rw [if_neg hr, getLast?_cons_ne_nil a _ hr] at hx
      exact ih x hx

theorem dropEndWS_eq_nil_iff (l : List Char) :
    dropEndWS l = [] ↔ ∀ c ∈ l, isWS c = true := by
  induction l with
  | nil => simp
  | cons a t ih =>
    rw [dropEndWS_cons]
    constructor
    · intro h
      by_cases hr : dropEndWS t = []
      · by_cases ha : isWS a = true
        · intro c hc
          rcases List.mem_cons.mp hc with rfl | hct
          · exact ha
          · exact ih.mp hr c hct
        · rw [if_pos hr, if_neg ha] at h; simp at h
      · rw [if_neg hr] at h; simp at h
    · intro h
      have hr : dropEndWS t = [] := ih.mpr (fun c hc => h c (List.mem_cons_of_mem _ hc))
      have ha : isWS a = true := h a (List.mem_cons_self a t)
      simp [hr, ha]

theorem dropWhile_ws_eq_nil_iff (l : List Char) :
    l.dropWhile isWS = [] ↔ ∀ c ∈ l, isWS c = true := by
  induction l with
  | nil => simp
  | cons a t ih =>
    by_cases ha : isWS a = true
    · simp [List.dropWhile_cons, ha, ih]
    · simp [List.dropWhile_cons, ha]

theorem dropWhile_head_not (p : Char → Bool) (l : List Char)
    (h : l.dropWhile p ≠ []) :
    ∀ x, (l.dropWhile p).head? = some x → p x = false := by
  induction l with
  | nil => simp at h
  | cons a t ih =>
    by_cases ha : p a = true
    · intro x hx
      rw [List.dropWhile_cons, if_pos ha] at hx h
      exact ih h x hx
    · intro x hx
      rw [List.dropWhile_cons, if_neg ha] at hx
      simp at hx
      rw [← hx]
      simpa using ha

theorem dropWhile_eq_self_of_okHead (l : List Char) (h : okHead l) :
    l.dropWhile isWS = l := by
  cases l with
  | nil => rfl
  | cons a t =>
    have : isWS a = false := h a rfl
    simp [List.dropWhile_cons, this]

/-- A non-whitespace character of `l` survives the front trim. -/
theorem mem_dropWhile_of_not_ws (l : List Char) (c : Char) (hc : isWS c = false)
    (hm : c ∈ l) : c ∈ l.dropWhile isWS := by
  induction l with
  | nil => simp at hm
  | cons a t ih =>
    by_cases ha : isWS a = true
    · rw [List.dropWhile_cons, if_pos ha]
      rcases List.mem_cons.mp hm with rfl | hct
      · rw [ha] at hc; simp at hc
      · exact ih hct
    · rw [List.dropWhile_cons, if_neg ha]
      exact hm

theorem stripL_eq_nil_iff (l : List Char) :
    stripL l = [] ↔ ∀ c ∈ l, isWS c = true := by
  unfold stripL
  rw [dropEndWS_eq_nil_iff]
  constructor
  · intro h c hc
    by_cases hws : isWS c = true
    · exact hws
    · exact h c (mem_dropWhile_of_not_ws l c (by simpa using hws) hc)
  · intro h c hc
    exact h c ((List.dropWhile_suffix isWS).sublist.subset hc)

/-- The workhorse: a string with non-whitespace first and last characters is
unchanged when stripped after appending one whitespace character. -/
theorem stripL_append_ws (l : List Char) (c : Char) (hc : isWS c = true)
    (hne : l ≠ []) (hh : okHead l) (hl : okLast l) :
    stripL (l ++ [c]) = l := by
  unfold stripL
  have hdw : (l ++ [c]).dropWhile isWS = l ++ [c] := by
    apply dropWhile_eq_self_of_okHead
    intro x hx
    cases l with
    | nil => exact absurd rfl hne
    | cons a t =>
      simp only [List.cons_append, List.head?_cons] at hx
      exact hh x (by simpa using hx)
  rw [hdw, dropEndWS_append_ws _ _ hc, dropEndWS_eq_self _ hl]

theorem stripL_eq_self (l : List Char) (hh : okHead l) (hl : okLast l) :
    stripL l = l := by
  unfold stripL
  rw [dropWhile_eq_self_of_okHead _ hh, dropEndWS_eq_self _ hl]

theorem okLast_stripL (l : List Char) : okLast (stripL l) :=
  okLast_dropEndWS _

theorem okHead_stripL (l : List Char) : okHead (stripL l) := by
  intro x hx
  have hne : stripL l ≠ [] := by
    intro h; rw [h] at hx; simp at hx
  unfold stripL at hx hne
  rw [dropEndWS_head? _ hne] at hx
  have hdw : l.dropWhile isWS ≠ [] := by
    intro h
    rw [h] at hx
    simp at hx
  exact dropWhile_head_not isWS l hdw x hx

/-- `stripL l = l` forces non-whitespace ends. -/
theorem okHead_of_stripL_eq_self (l : List Char) (h : stripL l = l) : okHead l := by
  rw [← h]; exact okHead_stripL l

theorem okLast_of_stripL_eq_self (l : List Char) (h : stripL l = l) : okLast l := by
  rw [← h]; exact okLast_stripL l

theorem strip_ne_empty_iff (s : String) : strip s ≠ "" ↔ hasNonWS s := by
  unfold strip hasNonWS
  rw [ne_eq, string_eq_iff_data]
  simp only [data_empty]
  constructor
  · intro h
    by_contra hc
    push_neg at hc
    exact h ((stripL_eq_nil_iff s.data).mpr (by
      intro c hcmem
      have := hc c hcmem
      simpa using this))
  · rintro ⟨c, hcmem, hcws⟩ h
    have := (stripL_eq_nil_iff s.data).mp (by simpa using h) c hcmem
    rw [this] at hcws; simp at hcws

theorem hasNonWS_append_left (a b : String) (h : hasNonWS a) : hasNonWS (a ++ b) := by
  obtain ⟨c, hc, hws⟩ := h
  exact ⟨c, by rw [data_append]; exact List.mem_append_left _ hc, hws⟩

theorem hasNonWS_append_right (a b : String) (h : hasNonWS b) : hasNonWS (a ++ b) := by
  obtain ⟨c, hc, hws⟩ := h
  exact ⟨c, by rw [data_append]; exact List.mem_append_right _ hc, hws⟩

theorem hasNonWS_strip (s : String) (h : hasNonWS s) : hasNonWS (strip s) := by
  have hne : strip s ≠ "" := (strip_ne_empty_iff s).mpr h
  rw [string_ne_empty_iff] at hne
  cases hd : (strip s).data with
  | nil => exact absurd hd hne
  | cons c t =>
    refine ⟨c, by rw [hd]; exact List.mem_cons_self _ _, ?_⟩
    have hd' : stripL s.data = c :: t := hd
    exact okHead_stripL s.data c (by rw [hd']; rfl)

/-! ### String append plumbing -/

theorem sappend_assoc (a b c : String) : (a ++ b) ++ c = a ++ (b ++ c) := by
  rw [string_eq_iff_data]
  simp only [data_append, List.append_assoc]

theorem sappend_empty (s : String) : s ++ "" = s := by
  rw [string_eq_iff_data]
  simp only [data_append, data_empty, List.append_nil]

theorem empty_sappend (s : String) : "" ++ s = s := by
  rw [string_eq_iff_data]
  simp only [data_append, data_empty, List.nil_append]

theorem head?_append_left (l m : List Char) (h : l ≠ []) :
    (l ++ m).head? = l.head? := by
  cases l with
  | nil => exact absurd rfl h
  | cons a t => rfl

theorem getLast?_append_right (l m : List Char) (h : m ≠ []) :
    (l ++ m).getLast? = m.getLast? := by
  induction l with
  | nil => rfl
  | cons a t ih =>
    rw [List.cons_append, getLast?_cons_ne_nil a _ (by
      intro hc
      rcases List.append_eq_nil.mp hc with ⟨-, hm⟩
      exact h hm), ih]

theorem okHead_of_trimmed (s : String) (h : strip s = s) : okHead s.data :=
  okHead_of_stripL_eq_self s.data ((string_eq_iff_data _ _).mp h)

theorem okLast_of_trimmed (s : String) (h : strip s = s) : okLast s.data :=
  okLast_of_stripL_eq_self s.data ((string_eq_iff_data _ _).mp h)

theorem strip_append_space (s : String) (hne : s ≠ "") (hh : okHead s.data)
    (hl : okLast s.data) : strip (s ++ " ") = s := by
  rw [string_eq_iff_data]
  show stripL ((s ++ " ").data) = s.data
  rw [data_append]
  exact stripL_append_ws s.data ' ' rfl ((string_ne_empty_iff s).mp hne) hh hl

theorem strip_append_newline (s : String) (hne : s ≠ "") (hh : okHead s.data)
    (hl : okLast s.data) : strip (s ++ "\n") = s := by
  rw [string_eq_iff_data]
  show stripL ((s ++ "\n").data) = s.data
  rw [data_append]
  exact stripL_append_ws s.data '\n' rfl ((string_ne_empty_iff s).mp hne) hh hl

/-! ### Separator joins -/

theorem joinSep_cons (sep t : String) (ts : List String) (h : ts ≠ []) :
    joinSep sep (t :: ts) = t ++ sep ++ joinSep sep ts := by
  cases ts with
  | nil => exact absurd rfl h
  | cons u us => rfl

theorem joinSep_ne_empty (sep t : String) (ts : List String) (ht : t ≠ "") :
    joinSep sep (t :: ts) ≠ "" := by
  rw [string_ne_empty_iff]
  cases ts with
  | nil =>
    exact (string_ne_empty_iff t).mp ht
  | cons u us =>
    rw [joinSep_cons sep t _ (List.cons_ne_nil u us), data_append, data_append]
    intro hc
    rcases List.append_eq_nil.mp hc with ⟨hc2, -⟩
    rcases List.append_eq_nil.mp hc2 with ⟨hc3, -⟩
    exact (string_ne_empty_iff t).mp ht hc3

theorem joinSep_okHead (sep t : String) (ts : List String) (ht : t ≠ "")
    (hh : okHead t.data) : okHead (joinSep sep (t :: ts)).data := by
  cases ts with
  | nil => exact hh
  | cons u us =>
    rw [joinSep_cons sep t _ (List.cons_ne_nil u us), data_append, data_append]
    intro x hx
    rw [List.append_assoc,
      head?_append_left _ _ ((string_ne_empty_iff t).mp ht)] at hx
    exact hh x hx

theorem joinSep_okLast (sep : String) (ts : List String) (hts : ts ≠ [])
    (h : ∀ x ∈ ts, x ≠ "" ∧ okLast x.data) : okLast (joinSep sep ts).data := by
  induction ts with
  | nil => exact absurd rfl hts
  | cons t rest ih =>
    cases rest with
    | nil => exact (h t (List.mem_cons_self t [])).2
    | cons u us =>
      rw [joinSep_cons sep t _ (List.cons_ne_nil u us), data_append, data_append]
      intro x hx
      have hrest : joinSep sep (u :: us) ≠ "" :=
        joinSep_ne_empty sep u us (h u (List.mem_cons_of_mem _ (List.mem_cons_self u us))).1
      rw [List.append_assoc,
        getLast?_append_right _ _ (by
          intro hc
          rcases List.append_eq_nil.mp hc with ⟨-, hc2⟩
          exact (string_ne_empty_iff _).mp hrest hc2),
        getLast?_append_right _ _ ((string_ne_empty_iff _).mp hrest)] at hx
      exact ih (List.cons_ne_nil u us) (fun y hy => h y (List.mem_cons_of_mem _ hy)) x hx

theorem joinSep_head? (sep t : String) (ts : List String) (ht : t ≠ "") :
    (joinSep sep (t :: ts)).data.head? = t.data.head? := by
  cases ts with
  | nil => rfl
  | cons u us =>
    rw [joinSep_cons sep t _ (List.cons_ne_nil u us), data_append, data_append,
      List.append_assoc, head?_append_left _ _ ((string_ne_empty_iff t).mp ht)]

theorem trailStr_eq_joinSp (ts : List String) (h : ts ≠ []) :
    trailStr ts = joinSp ts ++ " " := by
  induction ts with
  | nil => exact absurd rfl h
  | cons t rest ih =>
    cases rest with
    | nil =>
      show t ++ " " ++ "" = t ++ " "
      rw [sappend_empty]
    | cons u us =>
      show t ++ " " ++ trailStr (u :: us) = joinSp (t :: u :: us) ++ " "
      rw [ih (List.cons_ne_nil u us)]
      unfold joinSp
      rw [joinSep_cons " " t _ (List.cons_ne_nil u us)]
      rw [string_eq_iff_data]
      simp only [data_append, List.append_assoc]

/-! ### The merge loop: skipped units -/

theorem merge_step_skip (prep : String → String) (st : MState) (r : TSeg)
    (h : prep r.text = "" ∨ r.speaker = "ERROR") :
    merge_step prep st r = st := by
  unfold merge_step
  rw [if_pos h]

theorem kept_iff (prep : String → String) (r : TSeg) :
    (!(prep r.text == "" || r.speaker == "ERROR")) = true ↔
      ¬(prep r.text = "" ∨ r.speaker = "ERROR") := by
  simp

theorem foldl_merge_filter (prep : String → String) (rs : List TSeg) (st : MState) :
    rs.foldl (merge_step prep) st =
      (rs.filter (fun r => !(prep r.text == "" || r.speaker == "ERROR"))).foldl
        (merge_step prep) st := by
  induction rs generalizing st with
  | nil => rfl
  | cons r rest ih =>
    by_cases h : prep r.text = "" ∨ r.speaker = "ERROR"
    · rw [List.foldl_cons, merge_step_skip prep st r h, ih,
        List.filter_cons, if_neg (by simp only [kept_iff]; exact fun hc => hc h)]
    · rw [List.foldl_cons, ih, List.filter_cons,
        if_pos ((kept_iff prep r).mpr h), List.foldl_cons]

/-- Skipped units are invisible to either merge: merging a unit list equals
merging its kept sublist. -/
theorem merge_fold_filter (prep : String → String) (rs : List TSeg) :
    merge_fold prep rs =
      merge_fold prep
        (rs.filter (fun r => !(prep r.text == "" || r.speaker == "ERROR"))) := by
  unfold merge_fold
  rw [foldl_merge_filter]

/-! ### Speaker lookup -/

theorem labelRel_refl (a : String) : labelRel a a := by
  unfold labelRel labelLe
  generalize a.data = l
  induction l with
  | nil => rfl
  | cons x t ih => simpa [strLeB] using ih

theorem turn_intersects_eq_true {s e : ℚ} {t : Turn}
    (h : max t.start s < min t.stop e) : turn_intersects s e t = true :=
  decide_eq_true h

theorem turn_intersects_eq_false {s e : ℚ} {t : Turn}
    (h : ¬ max t.start s < min t.stop e) : turn_intersects s e t = false :=
  decide_eq_false h

theorem overlap_nonneg (a b c d : ℚ) : 0 ≤ overlap_duration a b c d :=
  le_max_left _ _

theorem intersects_iff (t : Turn) (s e : ℚ) :
    turn_intersects s e t = true ↔ 0 < overlap_duration t.start t.stop s e := by
  unfold turn_intersects overlap_duration
  rw [decide_eq_true_eq]
  constructor
  · intro h
    exact lt_max_iff.mpr (Or.inr (sub_pos.mpr h))
  · intro h
    rcases lt_max_iff.mp h with h0 | h1
    · exact absurd h0 (lt_irrefl 0)
    · exact sub_pos.mp h1

theorem overlap_eq_zero_iff (a b c d : ℚ) :
    overlap_duration a b c d = 0 ↔ ¬ 0 < overlap_duration a b c d :=
  ⟨fun h => by rw [h]; exact lt_irrefl 0,
   fun h => le_antisymm (not_lt.mp h) (overlap_nonneg a b c d)⟩

theorem crop_labels_of_filter_eq (turns : List Turn) (s e : ℚ) (l : List Turn)
    (h : turns.filter (turn_intersects s e) = l) :
    crop_labels turns s e = List.insertionSort labelRel ((l.map Turn.speaker).dedup) := by
  unfold crop_labels
  rw [h]

/-- If no turn intersects the span, the lookup returns the sentinel. -/
theorem speaker_for_segment_of_no_overlap (turns : List Turn) (s e : ℚ)
    (h : turns.filter (turn_intersects s e) = []) :
    speaker_for_segment turns s e = "UNKNOWN" := by
  unfold speaker_for_segment overlapping_labels
  rw [crop_labels_of_filter_eq turns s e [] h]
  rfl

/-- If exactly one turn intersects the span, its speaker is returned —
regardless of how small the overlap is. -/
theorem speaker_for_segment_singleton (turns : List Turn) (s e : ℚ) (t : Turn)
    (h : turns.filter (turn_intersects s e) = [t]) :
    speaker_for_segment turns s e = t.speaker := by
  unfold speaker_for_segment
  rw [crop_labels_of_filter_eq turns s e [t] h]
  rfl

/-- When some turn intersects the span, the lookup returns the
lexicographically least label among the intersecting turns. -/
theorem speaker_for_segment_min (turns : List Turn) (s e : ℚ)
    (hne : turns.filter (turn_intersects s e) ≠ []) :
    ∃ t ∈ turns, turn_intersects s e t = true ∧
      speaker_for_segment turns s e = t.speaker ∧
      ∀ t' ∈ turns, turn_intersects s e t' = true →
        labelRel (speaker_for_segment turns s e) t'.speaker := by
  have hD : ((turns.filter (turn_intersects s e)).map Turn.speaker).dedup ≠ [] := by
    intro h
    rw [List.dedup_eq_nil, List.map_eq_nil_iff] at h
    exact hne h
  have hperm := List.perm_insertionSort labelRel
    (((turns.filter (turn_intersects s e)).map Turn.speaker).dedup)
  have hL : crop_labels turns s e ≠ [] := by
    intro h
    unfold crop_labels at h
    rw [h] at hperm
    exact hD hperm.symm.eq_nil
  obtain ⟨a, rest, hcons⟩ := List.exists_cons_of_ne_nil hL
  have hres : speaker_for_segment turns s e = a := by
    unfold speaker_for_segment
    rw [hcons]
  have hpc : List.Perm (a :: rest)
      ((turns.filter (turn_intersects s e)).map Turn.speaker).dedup := by
    rw [← hcons]; exact hperm
  have ha_mem : a ∈ ((turns.filter (turn_intersects s e)).map Turn.speaker).dedup :=
    hpc.subset (List.mem_cons_self a rest)
  rw [List.mem_dedup] at ha_mem
  obtain ⟨t, htf, hts⟩ := List.mem_map.mp ha_mem
  have htt := List.mem_filter.mp htf
  refine ⟨t, htt.1, htt.2, by rw [hres, hts], ?_⟩
  intro t' ht' hint
  have hmem' : t'.speaker ∈ a :: rest := by
    apply hpc.mem_iff.mpr
    rw [List.mem_dedup]
    exact List.mem_map_of_mem _ (List.mem_filter.mpr ⟨ht', hint⟩)
  rcases List.mem_cons.mp hmem' with heq | hrest
  · rw [hres, heq]; exact labelRel_refl _
  · have hs : List.Sorted labelRel (a :: rest) := by
      rw [← hcons]
      exact List.sorted_insertionSort labelRel _
    rw [hres]
    exact List.rel_of_sorted_cons hs _ hrest

/-! ### Claim C1 — skipped units in the merge -/

/-- C1 counterexample: in the UI-client merge
(`ui_client/api.py` lines 314-332), a unit with non-empty whitespace-only
text is NOT skipped.  Inserting the unit `("B", " ")` between two `"A"`
units flushes the running `"A"` utterance and changes the output, so such a
unit does affect the running current-speaker state, refuting the claim. -/
theorem c1_counterexample :
    build_full_transcription_text
        [⟨"A", "hi", 0, 1⟩, ⟨"B", " ", 1, 2⟩, ⟨"A", "there", 2, 3⟩] =
      "A: hi\nB: \nA: there" ∧
    build_full_transcription_text [⟨"A", "hi", 0, 1⟩, ⟨"A", "there", 2, 3⟩] =
      "A: hi there" ∧
    build_full_transcription_text
        [⟨"A", "hi", 0, 1⟩, ⟨"B", " ", 1, 2⟩, ⟨"A", "there", 2, 3⟩] ≠
      build_full_transcription_text [⟨"A", "hi", 0, 1⟩, ⟨"A", "there", 2, 3⟩] :=
  ⟨by decide, by decide, by decide⟩

/-- C1 (amended): in the `main.py` merge, units whose speaker is "ERROR" or
whose text is empty or whitespace-only are skipped entirely — the merge of
any unit list equals the merge of its kept sublist, so same-speaker units
separated only by skipped units merge into one utterance (e.g. property P3).
In the UI-client merge the same holds, but only for units with speaker
"ERROR" or with empty text: a non-empty whitespace-only text is not skipped
there (upstream, the diarization service strips every text, so such units
cannot reach that merge). -/
theorem c1_skip_amended (rs : List TSeg) :
    format_final_transcription rs =
      format_final_transcription (rs.filter kept_main) ∧
    build_full_transcription_text rs =
      build_full_transcription_text (rs.filter kept_api) ∧
    format_final_transcription
        [⟨"A", "hi", 0, 1⟩, ⟨"ERROR", "x", 1, 2⟩, ⟨"A", "there", 2, 3⟩] =
      "A: hi there" :=
  ⟨merge_fold_filter strip rs, merge_fold_filter id rs, by decide⟩

/-! ### Claim C2 — range attribution -/

/-- C2 counterexample (the spec's property P5 input): for the unit `[0, 10]`
against the single turn `SPEAKER_0: [0, 3]`, the code attributes
"SPEAKER_0" — the crop is non-empty, so its first label is taken with no
majority-overlap test — while the claimed range-attribution procedure
returns "SPEAKER_UNKNOWN" (3 < 10/2).  No overlap accumulation, no
duration/2 threshold and no "SPEAKER_UNKNOWN" sentinel exist in the code. -/
theorem c2_counterexample :
    speaker_for_segment [⟨"SPEAKER_0", 0, 3⟩] 0 10 = "SPEAKER_0" ∧
    range_attribution_spec [⟨"SPEAKER_0", 0, 3⟩] 0 10 = "SPEAKER_UNKNOWN" ∧
    speaker_for_segment [⟨"SPEAKER_0", 0, 3⟩] 0 10 ≠
      range_attribution_spec [⟨"SPEAKER_0", 0, 3⟩] 0 10 := by
  have hf : ([⟨"SPEAKER_0", 0, 3⟩] : List Turn).filter (turn_intersects 0 10) =
      [⟨"SPEAKER_0", 0, 3⟩] := by
    rw [List.filter_cons,
      if_pos (turn_intersects_eq_true (by
        rw [max_self]
        exact lt_min (by norm_num) (by norm_num))),
      List.filter_nil]
  have hov : overlap_duration 0 3 0 10 = 3 := by
    unfold overlap_duration
    rw [min_eq_left (by norm_num : (3 : ℚ) ≤ 10), max_self, sub_zero,
      max_eq_right (by norm_num : (0 : ℚ) ≤ 3)]
  have h1 : speaker_for_segment [⟨"SPEAKER_0", 0, 3⟩] 0 10 = "SPEAKER_0" :=
    speaker_for_segment_singleton _ 0 10 _ hf
  have h2 : range_attribution_spec [⟨"SPEAKER_0", 0, 3⟩] 0 10 = "SPEAKER_UNKNOWN" := by
    unfold range_attribution_spec
    simp only [List.foldl_cons, List.foldl_nil]
    rw [hov, if_pos (by norm_num : (0 : ℚ) < 3)]
    have hsum : ((bump [] "SPEAKER_0" (3 : ℚ)).map Prod.snd).sum = 3 := by
      simp [bump]
    rw [hsum, if_pos (Or.inr (by norm_num : (3 : ℚ) < (10 - 0) / 2))]
  exact ⟨h1, h2, by rw [h1, h2]; decide⟩

/-- C2 (amended): the code performs no per-speaker overlap accumulation and
applies no majority threshold, and its sentinel is "UNKNOWN", not
"SPEAKER_UNKNOWN".  Whenever exactly one turn intersects the unit's span,
the unit is attributed that turn's speaker no matter how small the overlap
is (in P5's input, an overlap of 3 s against a 10 s unit still yields
"SPEAKER_0"). -/
theorem c2_range_attribution_amended (turns : List Turn) (s e : ℚ) (t : Turn)
    (h : turns.filter (turn_intersects s e) = [t]) :
    speaker_for_segment turns s e = t.speaker :=
  speaker_for_segment_singleton turns s e t h

theorem c2_witness :
    (([⟨"SPEAKER_0", 0, 3⟩] : List Turn).filter (turn_intersects 0 10) =
      [⟨"SPEAKER_0", 0, 3⟩]) ∧
    overlap_duration 0 3 0 10 < (10 - 0) / 2 ∧
    speaker_for_segment [⟨"SPEAKER_0", 0, 3⟩] 0 10 = "SPEAKER_0" := by
  have hf : ([⟨"SPEAKER_0", 0, 3⟩] : List Turn).filter (turn_intersects 0 10) =
      [⟨"SPEAKER_0", 0, 3⟩] := by
    rw [List.filter_cons,
      if_pos (turn_intersects_eq_true (by
        rw [max_self]
        exact lt_min (by norm_num) (by norm_num))),
      List.filter_nil]
  refine ⟨hf, ?_, c2_range_attribution_amended _ 0 10 _ hf⟩
  unfold overlap_duration
  rw [min_eq_left (by norm_num : (3 : ℚ) ≤ 10), max_self, sub_zero,
    max_eq_right (by norm_num : (0 : ℚ) ≤ 3)]
  norm_num

/-! ### Claim C3 — point (midpoint) attribution -/

/-- C3 counterexample: for the unit `[0, 10]` with turns
`SPEAKER_00: [0, 2]` and `SPEAKER_01: [4, 6]`, the claimed midpoint
procedure resolves the midpoint `5` inside SPEAKER_01's turn, but the code
never computes a midpoint: it crops the diarization to the whole span and
takes the first label of the sorted label list, giving "SPEAKER_00". -/
theorem c3_counterexample :
    point_attribution_spec [⟨"SPEAKER_00", 0, 2⟩, ⟨"SPEAKER_01", 4, 6⟩] 0 10 =
      "SPEAKER_01" ∧
    speaker_for_segment [⟨"SPEAKER_00", 0, 2⟩, ⟨"SPEAKER_01", 4, 6⟩] 0 10 =
      "SPEAKER_00" ∧
    speaker_for_segment [⟨"SPEAKER_00", 0, 2⟩, ⟨"SPEAKER_01", 4, 6⟩] 0 10 ≠
      point_attribution_spec [⟨"SPEAKER_00", 0, 2⟩, ⟨"SPEAKER_01", 4, 6⟩] 0 10 := by
  have hf : ([⟨"SPEAKER_00", 0, 2⟩, ⟨"SPEAKER_01", 4, 6⟩] : List Turn).filter
      (turn_intersects 0 10) = [⟨"SPEAKER_00", 0, 2⟩, ⟨"SPEAKER_01", 4, 6⟩] := by
    rw [List.filter_cons,
      if_pos (turn_intersects_eq_true (by
        rw [max_self]
        exact lt_min (by norm_num) (by norm_num))),
      List.filter_cons,
      if_pos (turn_intersects_eq_true (by
        rw [max_eq_left (by norm_num : (0 : ℚ) ≤ 4),
          min_eq_left (by norm_num : (6 : ℚ) ≤ 10)]
        norm_num)),
      List.filter_nil]
  have h2 : speaker_for_segment [⟨"SPEAKER_00", 0, 2⟩, ⟨"SPEAKER_01", 4, 6⟩] 0 10 =
      "SPEAKER_00" := by
    unfold speaker_for_segment
    rw [crop_labels_of_filter_eq _ _ _ _ hf]
    rfl
  have h1 : point_attribution_spec [⟨"SPEAKER_00", 0, 2⟩, ⟨"SPEAKER_01", 4, 6⟩] 0 10 =
      "SPEAKER_01" := by
    have hm1 : (0 : ℚ) + (10 - 0) / 2 - 1 / 10000 = 49999 / 10000 := by norm_num
    have hm2 : (0 : ℚ) + (10 - 0) / 2 + 1 / 10000 = 50001 / 10000 := by norm_num
    simp only [point_attribution_spec]
    rw [hm1, hm2]
    have hf1 : turn_intersects (49999 / 10000) (50001 / 10000)
        (⟨"SPEAKER_00", 0, 2⟩ : Turn) = false :=
      turn_intersects_eq_false (by
        rw [max_eq_right (by norm_num : (0 : ℚ) ≤ 49999 / 10000),
          min_eq_left (by norm_num : (2 : ℚ) ≤ 50001 / 10000)]
        norm_num)
    have hf2 : turn_intersects (49999 / 10000) (50001 / 10000)
        (⟨"SPEAKER_01", 4, 6⟩ : Turn) = true :=
      turn_intersects_eq_true (by
        rw [max_eq_right (by norm_num : (4 : ℚ) ≤ 49999 / 10000),
          min_eq_right (by norm_num : (50001 / 10000 : ℚ) ≤ 6)]
        norm_num)
    rw [List.find?_cons_of_neg _ (by simp [hf1]), List.find?_cons_of_pos _ hf2]
  exact ⟨h1, h2, by rw [h1, h2]; decide⟩

/-- C3 (amended): no midpoint and no ±1e-4 dilation exist in the code.  The
speaker of a recognized unit is looked up on the unit's whole span: whenever
some turn intersects the span, the unit is attributed the lexicographically
least label among the intersecting turns (pyannote's `labels()` is sorted),
and a turn containing the span's midpoint has no special role. -/
theorem c3_point_attribution_amended (turns : List Turn) (s e : ℚ)
    (hne : turns.filter (turn_intersects s e) ≠ []) :
    ∃ t ∈ turns, turn_intersects s e t = true ∧
      speaker_for_segment turns s e = t.speaker ∧
      ∀ t' ∈ turns, turn_intersects s e t' = true →
        labelRel (speaker_for_segment turns s e) t'.speaker :=
  speaker_for_segment_min turns s e hne

theorem c3_witness :
    ∃ t ∈ ([⟨"SPEAKER_00", 0, 2⟩, ⟨"SPEAKER_01", 4, 6⟩] : List Turn),
      turn_intersects 0 10 t = true ∧
      speaker_for_segment [⟨"SPEAKER_00", 0, 2⟩, ⟨"SPEAKER_01", 4, 6⟩] 0 10 =
        t.speaker ∧
      ∀ t' ∈ ([⟨"SPEAKER_00", 0, 2⟩, ⟨"SPEAKER_01", 4, 6⟩] : List Turn),
        turn_intersects 0 10 t' = true →
        labelRel
          (speaker_for_segment [⟨"SPEAKER_00", 0, 2⟩, ⟨"SPEAKER_01", 4, 6⟩] 0 10)
          t'.speaker :=
  c3_point_attribution_amended _ 0 10 (by
    rw [List.filter_cons,
      if_pos (turn_intersects_eq_true (by
        rw [max_self]
        exact lt_min (by norm_num) (by norm_num)))]
    exact List.cons_ne_nil _ _)

/-! ### Claim C4 — span-based speaker lookup -/

/-- C4 counterexample: with turns `SPEAKER_00: [0, 1]` and
`SPEAKER_01: [0, 9]` and query span `[0, 10]`, the largest-overlap rule
claimed by the spec selects SPEAKER_01 (9 s against 1 s), but the code
returns "SPEAKER_00": it takes the first label of pyannote's sorted label
list and never compares overlap durations. -/
theorem c4_counterexample :
    speaker_over_span_spec [⟨"SPEAKER_00", 0, 1⟩, ⟨"SPEAKER_01", 0, 9⟩] 0 10 =
      "SPEAKER_01" ∧
    speaker_for_segment [⟨"SPEAKER_00", 0, 1⟩, ⟨"SPEAKER_01", 0, 9⟩] 0 10 =
      "SPEAKER_00" ∧
    speaker_for_segment [⟨"SPEAKER_00", 0, 1⟩, ⟨"SPEAKER_01", 0, 9⟩] 0 10 ≠
      speaker_over_span_spec [⟨"SPEAKER_00", 0, 1⟩, ⟨"SPEAKER_01", 0, 9⟩] 0 10 := by
  have hf : ([⟨"SPEAKER_00", 0, 1⟩, ⟨"SPEAKER_01", 0, 9⟩] : List Turn).filter
      (turn_intersects 0 10) = [⟨"SPEAKER_00", 0, 1⟩, ⟨"SPEAKER_01", 0, 9⟩] := by
    rw [List.filter_cons,
      if_pos (turn_intersects_eq_true (by
        rw [max_self]
        exact lt_min (by norm_num) (by norm_num))),
      List.filter_cons,
      if_pos (turn_intersects_eq_true (by
        rw [max_self]
        exact lt_min (by norm_num) (by norm_num))),
      List.filter_nil]
  have ho1 : overlap_duration 0 1 0 10 = 1 := by
    unfold overlap_duration
    rw [min_eq_left (by norm_num : (1 : ℚ) ≤ 10), max_self, sub_zero,
      max_eq_right (by norm_num : (0 : ℚ) ≤ 1)]
  have ho2 : overlap_duration 0 9 0 10 = 9 := by
    unfold overlap_duration
    rw [min_eq_left (by norm_num : (9 : ℚ) ≤ 10), max_self, sub_zero,
      max_eq_right (by norm_num : (0 : ℚ) ≤ 9)]
  have h1 : speaker_over_span_spec [⟨"SPEAKER_00", 0, 1⟩, ⟨"SPEAKER_01", 0, 9⟩] 0 10 =
      "SPEAKER_01" := by
    unfold speaker_over_span_spec
    rw [hf]
    simp only [List.foldl_cons, List.foldl_nil]
    rw [ho1, ho2, if_pos (by norm_num : (1 : ℚ) < 9)]
  have h2 : speaker_for_segment [⟨"SPEAKER_00", 0, 1⟩, ⟨"SPEAKER_01", 0, 9⟩] 0 10 =
      "SPEAKER_00" := by
    unfold speaker_for_segment
    rw [crop_labels_of_filter_eq _ _ _ _ hf]
    rfl
  exact ⟨h1, h2, by rw [h1, h2]; decide⟩

/-- C4 (amended): the span lookup does not select the largest-overlap turn;
it returns the label of some positively-overlapping turn — the
lexicographically least label of the sorted label set — and, provided no
turn is itself labelled "UNKNOWN", it returns the sentinel "UNKNOWN" if and
only if no turn has positive overlap with the span. -/
theorem c4_span_lookup_amended (turns : List Turn) (s e : ℚ)
    (hlab : ∀ t ∈ turns, t.speaker ≠ "UNKNOWN") :
    (speaker_for_segment turns s e = "UNKNOWN" ↔
      ∀ t ∈ turns, overlap_duration t.start t.stop s e = 0) ∧
    (speaker_for_segment turns s e ≠ "UNKNOWN" →
      ∃ t ∈ turns, 0 < overlap_duration t.start t.stop s e ∧
        speaker_for_segment turns s e = t.speaker) := by
  by_cases hf : turns.filter (turn_intersects s e) = []
  · have hu := speaker_for_segment_of_no_overlap turns s e hf
    rw [List.filter_eq_nil_iff] at hf
    constructor
    · rw [hu]
      constructor
      · intro _ t ht
        rw [overlap_eq_zero_iff]
        intro hpos
        exact hf t ht ((intersects_iff t s e).mpr hpos)
      · intro _; rfl
    · rw [hu]
      intro hne
      exact absurd rfl hne
  · obtain ⟨t, htm, hti, heq, _⟩ := speaker_for_segment_min turns s e hf
    constructor
    · constructor
      · intro hu
        exact absurd (heq.symm.trans hu) (hlab t htm)
      · intro hall
        exfalso
        have hpos := (intersects_iff t s e).mp hti
        rw [hall t htm] at hpos
        exact lt_irrefl 0 hpos
    · intro _
      exact ⟨t, htm, (intersects_iff t s e).mp hti, heq⟩

theorem c4_witness :
    (speaker_for_segment [⟨"SPEAKER_00", 0, 2⟩] 3 10 = "UNKNOWN" ↔
      ∀ t ∈ ([⟨"SPEAKER_00", 0, 2⟩] : List Turn),
        overlap_duration t.start t.stop 3 10 = 0) ∧
    (speaker_for_segment [⟨"SPEAKER_00", 0, 2⟩] 3 10 ≠ "UNKNOWN" →
      ∃ t ∈ ([⟨"SPEAKER_00", 0, 2⟩] : List Turn),
        0 < overlap_duration t.start t.stop 3 10 ∧
        speaker_for_segment [⟨"SPEAKER_00", 0, 2⟩] 3 10 = t.speaker) :=
  c4_span_lookup_amended [⟨"SPEAKER_00", 0, 2⟩] 3 10 (by decide)

/-! ### Uniform-speaker runs -/

theorem merge_step_same_speaker (prep : String → String) (A X U : String)
    (r : TSeg) (hr : r.speaker = X) (ht : prep r.text ≠ "") (hX : X ≠ "ERROR") :
    merge_step prep ⟨A, some X, U⟩ r = ⟨A, some X, U ++ prep r.text ++ " "⟩ := by
  unfold merge_step
  rw [if_neg (by
    rintro (h | h)
    · exact ht h
    · rw [hr] at h; exact hX h)]
  show (if r.speaker = X then _ else _) = _
  rw [if_pos hr]

theorem foldl_merge_uniform (prep : String → String) (X : String) (rs : List TSeg)
    (hX : X ≠ "ERROR")
    (hs : ∀ r ∈ rs, r.speaker = X)
    (ht : ∀ r ∈ rs, prep r.text ≠ "") :
    ∀ A U, rs.foldl (merge_step prep) ⟨A, some X, U⟩ =
      ⟨A, some X, U ++ trailStr (rs.map fun r => prep r.text)⟩ := by
  induction rs with
  | nil =>
    intro A U
    show (⟨A, some X, U⟩ : MState) = ⟨A, some X, U ++ ""⟩
    rw [sappend_empty]
  | cons r rest ih =>
    intro A U
    rw [List.foldl_cons,
      merge_step_same_speaker prep A X U r (hs r (List.mem_cons_self r rest))
        (ht r (List.mem_cons_self r rest)) hX,
      ih (fun x hx => hs x (List.mem_cons_of_mem _ hx))
        (fun x hx => ht x (List.mem_cons_of_mem _ hx))]
    show (⟨A, some X, _⟩ : MState) = ⟨A, some X, _⟩
    congr 1
    show U ++ prep r.text ++ " " ++ _ = U ++ (prep r.text ++ " " ++ _)
    rw [string_eq_iff_data]
    simp only [data_append, List.append_assoc]

theorem merge_step_utts_same_speaker (prep : String → String)
    (F : List (String × String)) (X U : String)
    (r : TSeg) (hr : r.speaker = X) (ht : prep r.text ≠ "") (hX : X ≠ "ERROR") :
    merge_step_utts prep ⟨F, some X, U⟩ r = ⟨F, some X, U ++ prep r.text ++ " "⟩ := by
  unfold merge_step_utts
  rw [if_neg (by
    rintro (h | h)
    · exact ht h
    · rw [hr] at h; exact hX h)]
  show (if r.speaker = X then _ else _) = _
  rw [if_pos hr]

theorem foldl_merge_utts_uniform (prep : String → String) (X : String)
    (rs : List TSeg)
    (hX : X ≠ "ERROR")
    (hs : ∀ r ∈ rs, r.speaker = X)
    (ht : ∀ r ∈ rs, prep r.text ≠ "") :
    ∀ F U, rs.foldl (merge_step_utts prep) ⟨F, some X, U⟩ =
      ⟨F, some X, U ++ trailStr (rs.map fun r => prep r.text)⟩ := by
  induction rs with
  | nil =>
    intro F U
    show (⟨F, some X, U⟩ : GState) = ⟨F, some X, U ++ ""⟩
    rw [sappend_empty]
  | cons r rest ih =>
    intro F U
    rw [List.foldl_cons,
      merge_step_utts_same_speaker prep F X U r (hs r (List.mem_cons_self r rest))
        (ht r (List.mem_cons_self r rest)) hX,
      ih (fun x hx => hs x (List.mem_cons_of_mem _ hx))
        (fun x hx => ht x (List.mem_cons_of_mem _ hx))]
    show (⟨F, some X, _⟩ : GState) = ⟨F, some X, _⟩
    congr 1
    show U ++ prep r.text ++ " " ++ _ = U ++ (prep r.text ++ " " ++ _)
    rw [string_eq_iff_data]
    simp only [data_append, List.append_assoc]

/-! ### Claim C5 — uniform speaker merges to one utterance -/

/-- C5 counterexample: the merged text is NOT the space-join of the raw unit
texts when a text carries surrounding whitespace — `main.py` strips each
text before appending, so `["a ", "b"]` merges to `"A: a b"`, not to the
space-join `"A: a  b"` of the texts themselves. -/
theorem c5_counterexample :
    format_final_transcription [⟨"A", "a ", 0, 1⟩, ⟨"A", "b", 1, 2⟩] = "A: a b" ∧
    "A" ++ ": " ++ joinSp ["a ", "b"] = "A: a  b" ∧
    format_final_transcription [⟨"A", "a ", 0, 1⟩, ⟨"A", "b", 1, 2⟩] ≠
      "A" ++ ": " ++ joinSp ["a ", "b"] :=
  ⟨by decide, by decide, by decide⟩

/-- C5 (amended): for every non-empty unit list with one common speaker `X`
(`X` non-empty, whitespace-trimmed, not "ERROR") whose texts are non-empty
and carry no leading or trailing whitespace, the merge flushes exactly one
utterance, whose text is the space-joined concatenation of the unit texts in
order, rendered as the single line `X ++ ": " ++ <join>`.  This covers both
merge implementations (`prep = strip` for `main.py`, `prep = id` for the UI
client); for raw texts with surrounding whitespace the space-join equality
fails (see the counterexample). -/
theorem c5_uniform_merge_amended (prep : String → String) (rs : List TSeg)
    (X : String)
    (hne : rs ≠ [])
    (hs : ∀ r ∈ rs, r.speaker = X)
    (hXe : X ≠ "ERROR") (hX0 : X ≠ "") (hXt : strip X = X)
    (htext : ∀ r ∈ rs, prep r.text = r.text ∧ strip r.text = r.text ∧ r.text ≠ "") :
    merge_utts prep rs = [(X, joinSp (rs.map TSeg.text))] ∧
    merge_fold prep rs = X ++ ": " ++ joinSp (rs.map TSeg.text) := by
  obtain ⟨r0, rest, rfl⟩ := List.exists_cons_of_ne_nil hne
  have h0 := htext r0 (List.mem_cons_self r0 rest)
  have htext' : ∀ r ∈ r0 :: rest, prep r.text ≠ "" := by
    intro r hr
    rw [(htext r hr).1]
    exact (htext r hr).2.2
  have hmapeq : ((r0 :: rest).map fun r => prep r.text) = (r0 :: rest).map TSeg.text := by
    apply List.map_congr_left
    intro r hr
    exact (htext r hr).1
  -- The join is a nonempty, whitespace-trimmed string.
  have hjoin_ok : ∀ x ∈ (r0 :: rest).map TSeg.text, x ≠ "" ∧ okLast x.data := by
    intro x hx
    obtain ⟨r, hr, rfl⟩ := List.mem_map.mp hx
    exact ⟨(htext r hr).2.2, okLast_of_trimmed _ (htext r hr).2.1⟩
  have hJne : joinSp ((r0 :: rest).map TSeg.text) ≠ "" :=
    joinSep_ne_empty " " r0.text _ h0.2.2
  have hJh : okHead (joinSp ((r0 :: rest).map TSeg.text)).data :=
    joinSep_okHead " " r0.text _ h0.2.2 (okHead_of_trimmed _ h0.2.1)
  have hJl : okLast (joinSp ((r0 :: rest).map TSeg.text)).data :=
    joinSep_okLast " " _ (by simp) hjoin_ok
  -- The accumulated utterance and its strip.
  have hutt : trailStr ((r0 :: rest).map fun r => prep r.text) =
      joinSp ((r0 :: rest).map TSeg.text) ++ " " := by
    rw [hmapeq, trailStr_eq_joinSp _ (by simp)]
  have hstrip_utt :
      strip (trailStr ((r0 :: rest).map fun r => prep r.text)) =
        joinSp ((r0 :: rest).map TSeg.text) := by
    rw [hutt]
    exact strip_append_space _ hJne hJh hJl
  -- Folding the whole list from the initial state.
  have hfold : (r0 :: rest).foldl (merge_step prep) ⟨"", none, ""⟩ =
      ⟨"", some X, trailStr ((r0 :: rest).map fun r => prep r.text)⟩ := by
    rw [List.foldl_cons]
    have hstep : merge_step prep ⟨"", none, ""⟩ r0 =
        ⟨"", some X, prep r0.text ++ " "⟩ := by
      unfold merge_step
      rw [if_neg (by
        rintro (h | h)
        · exact htext' r0 (List.mem_cons_self r0 rest) h
        · rw [hs r0 (List.mem_cons_self r0 rest)] at h; exact hXe h)]
      show (⟨"", some r0.speaker, "" ++ prep r0.text ++ " "⟩ : MState) = _
      rw [hs r0 (List.mem_cons_self r0 rest), empty_sappend]
    rw [hstep,
      foldl_merge_uniform prep X rest hXe
        (fun x hx => hs x (List.mem_cons_of_mem _ hx))
        (fun x hx => htext' x (List.mem_cons_of_mem _ hx))]
    rfl
  have hgfold : (r0 :: rest).foldl (merge_step_utts prep) ⟨[], none, ""⟩ =
      ⟨[], some X, trailStr ((r0 :: rest).map fun r => prep r.text)⟩ := by
    rw [List.foldl_cons]
    have hstep : merge_step_utts prep ⟨[], none, ""⟩ r0 =
        ⟨[], some X, prep r0.text ++ " "⟩ := by
      unfold merge_step_utts
      rw [if_neg (by
        rintro (h | h)
        · exact htext' r0 (List.mem_cons_self r0 rest) h
        · rw [hs r0 (List.mem_cons_self r0 rest)] at h; exact hXe h)]
      show (⟨[], some r0.speaker, "" ++ prep r0.text ++ " "⟩ : GState) = _
      rw [hs r0 (List.mem_cons_self r0 rest), empty_sappend]
    rw [hstep,
      foldl_merge_utts_uniform prep X rest hXe
        (fun x hx => hs x (List.mem_cons_of_mem _ hx))
        (fun x hx => htext' x (List.mem_cons_of_mem _ hx))]
    rfl
  constructor
  · unfold merge_utts
    rw [hgfold]
    unfold merge_utts_finish
    dsimp only
    rw [if_pos ⟨hX0, by rw [hstrip_utt]; exact hJne⟩]
    rw [hstrip_utt]
    rfl
  · unfold merge_fold
    rw [hfold]
    unfold merge_finish
    dsimp only
    rw [if_pos ⟨hX0, by rw [hstrip_utt]; exact hJne⟩]
    rw [hstrip_utt]
    -- strip ("" ++ X ++ ": " ++ J ++ "\n") = X ++ ": " ++ J
    have hXok := okHead_of_trimmed X hXt
    have hXne := (string_ne_empty_iff X).mp hX0
    have hshape : "" ++ X ++ ": " ++ joinSp ((r0 :: rest).map TSeg.text) ++ "\n" =
        (X ++ ": " ++ joinSp ((r0 :: rest).map TSeg.text)) ++ "\n" := by
      rw [string_eq_iff_data]
      simp only [data_append, data_empty, List.nil_append]
    rw [hshape]
    apply strip_append_newline
    · rw [string_ne_empty_iff, data_append]
      intro hc
      rcases List.append_eq_nil.mp hc with ⟨hc2, -⟩
      rcases List.append_eq_nil.mp hc2 with ⟨hc3, -⟩
      exact hXne hc3
    · intro x hx
      rw [data_append, data_append, List.append_assoc,
        head?_append_left _ _ hXne] at hx
      exact hXok x hx
    · intro x hx
      rw [data_append,
        getLast?_append_right _ _ ((string_ne_empty_iff _).mp hJne)] at hx
      exact hJl x hx

theorem c5_witness :
    (([⟨"A", "hi", 0, 1⟩, ⟨"A", "there", 1, 2⟩] : List TSeg) ≠ []) ∧
    merge_utts strip [⟨"A", "hi", 0, 1⟩, ⟨"A", "there", 1, 2⟩] = [("A", "hi there")] ∧
    merge_fold strip [⟨"A", "hi", 0, 1⟩, ⟨"A", "there", 1, 2⟩] = "A: hi there" := by
  have h := c5_uniform_merge_amended strip
    [⟨"A", "hi", 0, 1⟩, ⟨"A", "there", 1, 2⟩] "A"
    (by decide) (by decide) (by decide) (by decide) (by decide) (by decide)
  refine ⟨by decide, ?_, ?_⟩
  · rw [h.1]; decide
  · rw [h.2]; decide

/-! ### Rendering -/

theorem line_ne_empty (a b : String) (ha : a ≠ "") : a ++ ": " ++ b ≠ "" := by
  rw [string_ne_empty_iff, data_append, data_append]
  intro hc
  rcases List.append_eq_nil.mp hc with ⟨hc2, -⟩
  rcases List.append_eq_nil.mp hc2 with ⟨hc3, -⟩
  exact (string_ne_empty_iff a).mp ha hc3

theorem line_okHead (a b : String) (ha : a ≠ "") (hh : okHead a.data) :
    okHead (a ++ ": " ++ b).data := by
  intro x hx
  rw [data_append, data_append, List.append_assoc,
    head?_append_left _ _ ((string_ne_empty_iff a).mp ha)] at hx
  exact hh x hx

theorem line_okLast (a b : String) (hb : b ≠ "") (hl : okLast b.data) :
    okLast (a ++ ": " ++ b).data := by
  intro x hx
  rw [data_append,
    getLast?_append_right _ _ ((string_ne_empty_iff b).mp hb)] at hx
  exact hl x hx

theorem render_lines_append_one (fl : List (String × String)) (x : String × String) :
    render_lines (fl ++ [x]) = render_lines fl ++ (x.1 ++ ": " ++ x.2 ++ "\n") := by
  induction fl with
  | nil =>
    show (x.1 ++ ": " ++ x.2 ++ "\n") ++ render_lines [] = _
    rw [show render_lines [] = "" from rfl, sappend_empty, empty_sappend]
  | cons u us ih =>
    show (u.1 ++ ": " ++ u.2 ++ "\n") ++ render_lines (us ++ [x]) = _
    rw [ih, ← sappend_assoc]
    rfl

theorem render_lines_eq_joinNl (us : List (String × String)) (h : us ≠ []) :
    render_lines us = joinNl (us.map fun u => u.1 ++ ": " ++ u.2) ++ "\n" := by
  induction us with
  | nil => exact absurd rfl h
  | cons u vs ih =>
    cases vs with
    | nil =>
      show (u.1 ++ ": " ++ u.2 ++ "\n") ++ "" = _
      rw [sappend_empty]
      rfl
    | cons v ws =>
      show (u.1 ++ ": " ++ u.2 ++ "\n") ++ render_lines (v :: ws) = _
      rw [ih (List.cons_ne_nil v ws)]
      simp only [List.map_cons]
      unfold joinNl
      rw [joinSep_cons "\n" _ _ (List.cons_ne_nil _ _)]
      rw [string_eq_iff_data]
      simp only [data_append, List.append_assoc]

/-! ### Claim C6 — rendering format -/

/-- C6: for every utterance sequence whose speakers and (already trimmed)
texts are non-empty and whitespace-trimmed, the accumulated rendering
`"{speaker}: {text}\n"` per utterance followed by the final `.strip()` is
exactly the newline-join of the lines `"{speaker}: {text}"` in order, with
no trailing newline; in particular the P8 pair renders through the real
pipeline merge as exactly `"SPEAKER_0: hello there\nSPEAKER_1: hi"`. -/
theorem c6_rendering (us : List (String × String))
    (hsp : ∀ u ∈ us, strip u.1 = u.1 ∧ u.1 ≠ "")
    (htx : ∀ u ∈ us, strip u.2 = u.2 ∧ u.2 ≠ "") :
    strip (render_lines us) = joinNl (us.map fun u => u.1 ++ ": " ++ u.2) ∧
    format_final_transcription
        [⟨"SPEAKER_0", "hello there", 0, 2⟩, ⟨"SPEAKER_1", "hi", 2, 3⟩] =
      "SPEAKER_0: hello there\nSPEAKER_1: hi" := by
  refine ⟨?_, by decide⟩
  cases us with
  | nil => rfl
  | cons u vs =>
    rw [render_lines_eq_joinNl _ (List.cons_ne_nil u vs)]
    have hu := hsp u (List.mem_cons_self u vs)
    have hlines : ∀ x ∈ ((u.1 ++ ": " ++ u.2) :: vs.map fun w => w.1 ++ ": " ++ w.2),
        x ≠ "" ∧ okLast x.data := by
      intro x hx
      rcases List.mem_cons.mp hx with rfl | hx'
      · exact ⟨line_ne_empty _ _ hu.2,
          line_okLast _ _ (htx u (List.mem_cons_self u vs)).2
            (okLast_of_trimmed _ (htx u (List.mem_cons_self u vs)).1)⟩
      · obtain ⟨w, hw, rfl⟩ := List.mem_map.mp hx'
        exact ⟨line_ne_empty _ _ (hsp w (List.mem_cons_of_mem _ hw)).2,
          line_okLast _ _ (htx w (List.mem_cons_of_mem _ hw)).2
            (okLast_of_trimmed _ (htx w (List.mem_cons_of_mem _ hw)).1)⟩
    simp only [List.map_cons]
    apply strip_append_newline
    · exact joinSep_ne_empty "\n" _ _ (line_ne_empty _ _ hu.2)
    · exact joinSep_okHead "\n" _ _ (line_ne_empty _ _ hu.2)
        (line_okHead _ _ hu.2 (okHead_of_trimmed _ hu.1))
    · exact joinSep_okLast "\n" _ (List.cons_ne_nil _ _) hlines

theorem c6_witness :
    strip (render_lines [("SPEAKER_0", "hello there"), ("SPEAKER_1", "hi")]) =
      joinNl (([("SPEAKER_0", "hello there"), ("SPEAKER_1", "hi")] :
        List (String × String)).map fun u => u.1 ++ ": " ++ u.2) ∧
    format_final_transcription
        [⟨"SPEAKER_0", "hello there", 0, 2⟩, ⟨"SPEAKER_1", "hi", 2, 3⟩] =
      "SPEAKER_0: hello there\nSPEAKER_1: hi" :=
  c6_rendering [("SPEAKER_0", "hello there"), ("SPEAKER_1", "hi")]
    (by decide) (by decide)

/-! ### The ghost merge mirrors the rendered merge -/

theorem merge_step_utts_skip (prep : String → String) (st : GState) (r : TSeg)
    (h : prep r.text = "" ∨ r.speaker = "ERROR") :
    merge_step_utts prep st r = st := by
  unfold merge_step_utts
  rw [if_pos h]

theorem merge_step_kept_none (prep : String → String) (A U : String) (r : TSeg)
    (hk : ¬(prep r.text = "" ∨ r.speaker = "ERROR")) :
    merge_step prep ⟨A, none, U⟩ r = ⟨A, some r.speaker, U ++ prep r.text ++ " "⟩ := by
  unfold merge_step
  rw [if_neg hk]

theorem merge_step_kept_some (prep : String → String) (A U c : String) (r : TSeg)
    (hk : ¬(prep r.text = "" ∨ r.speaker = "ERROR")) :
    merge_step prep ⟨A, some c, U⟩ r =
      if r.speaker = c then ⟨A, some c, U ++ prep r.text ++ " "⟩
      else ⟨A ++ c ++ ": " ++ strip U ++ "\n", some r.speaker, prep r.text ++ " "⟩ := by
  unfold merge_step
  rw [if_neg hk]

theorem merge_step_utts_kept_none (prep : String → String)
    (F : List (String × String)) (U : String) (r : TSeg)
    (hk : ¬(prep r.text = "" ∨ r.speaker = "ERROR")) :
    merge_step_utts prep ⟨F, none, U⟩ r =
      ⟨F, some r.speaker, U ++ prep r.text ++ " "⟩ := by
  unfold merge_step_utts
  rw [if_neg hk]

theorem merge_step_utts_kept_some (prep : String → String)
    (F : List (String × String)) (U c : String) (r : TSeg)
    (hk : ¬(prep r.text = "" ∨ r.speaker = "ERROR")) :
    merge_step_utts prep ⟨F, some c, U⟩ r =
      if r.speaker = c then ⟨F, some c, U ++ prep r.text ++ " "⟩
      else ⟨F ++ [(c, strip U)], some r.speaker, prep r.text ++ " "⟩ := by
  unfold merge_step_utts
  rw [if_neg hk]

theorem foldl_merge_connection (prep : String → String) (rs : List TSeg) :
    ∀ (fl : List (String × String)) (cur : Option String) (utt : String),
      rs.foldl (merge_step prep) ⟨render_lines fl, cur, utt⟩ =
        ⟨render_lines (rs.foldl (merge_step_utts prep) ⟨fl, cur, utt⟩).flushed,
         (rs.foldl (merge_step_utts prep) ⟨fl, cur, utt⟩).cur,
         (rs.foldl (merge_step_utts prep) ⟨fl, cur, utt⟩).utt⟩ := by
  induction rs with
  | nil => intro fl cur utt; rfl
  | cons r rest ih =>
    intro fl cur utt
    rw [List.foldl_cons, List.foldl_cons]
    by_cases hk : prep r.text = "" ∨ r.speaker = "ERROR"
    · rw [merge_step_skip prep _ r hk, merge_step_utts_skip prep _ r hk]
      exact ih fl cur utt
    · cases cur with
      | none =>
        rw [merge_step_kept_none prep _ _ r hk, merge_step_utts_kept_none prep _ _ r hk]
        exact ih fl (some r.speaker) (utt ++ prep r.text ++ " ")
      | some c =>
        rw [merge_step_kept_some prep _ _ c r hk, merge_step_utts_kept_some prep _ _ c r hk]
        by_cases heq : r.speaker = c
        · rw [if_pos heq, if_pos heq]
          exact ih fl (some c) (utt ++ prep r.text ++ " ")
        · rw [if_neg heq, if_neg heq]
          have hacc : render_lines fl ++ c ++ ": " ++ strip utt ++ "\n" =
              render_lines (fl ++ [(c, strip utt)]) := by
            rw [render_lines_append_one]
            rw [string_eq_iff_data]
            simp only [data_append, List.append_assoc]
          rw [hacc]
          exact ih (fl ++ [(c, strip utt)]) (some r.speaker) (prep r.text ++ " ")

theorem merge_fold_eq_render (prep : String → String) (rs : List TSeg) :
    merge_fold prep rs = strip (render_lines (merge_utts prep rs)) := by
  unfold merge_fold merge_utts
  rw [show (⟨"", none, ""⟩ : MState) = ⟨render_lines [], none, ""⟩ from rfl,
    foldl_merge_connection prep rs [] none ""]
  generalize rs.foldl (merge_step_utts prep) ⟨[], none, ""⟩ = g
  obtain ⟨fl, cur, utt⟩ := g
  cases cur with
  | none => rfl
  | some c =>
    unfold merge_finish merge_utts_finish
    dsimp only
    by_cases hcond : c ≠ "" ∧ strip utt ≠ ""
    · rw [if_pos hcond, if_pos hcond]
      congr 1
      rw [render_lines_append_one]
      rw [string_eq_iff_data]
      simp only [data_append, List.append_assoc]
    · rw [if_neg hcond, if_neg hcond]

/-! ### Claim C10 — no two consecutive utterances share a speaker -/

theorem ghost_fold_invariant (prep : String → String) (rs : List TSeg) :
    ∀ (st : GState),
      List.Chain' (fun a b : String × String => a.1 ≠ b.1) st.flushed →
      (st.cur = none → st.flushed = []) →
      (∀ c last, st.cur = some c → st.flushed.getLast? = some last → last.1 ≠ c) →
      List.Chain' (fun a b : String × String => a.1 ≠ b.1)
          (rs.foldl (merge_step_utts prep) st).flushed ∧
        ((rs.foldl (merge_step_utts prep) st).cur = none →
          (rs.foldl (merge_step_utts prep) st).flushed = []) ∧
        (∀ c last, (rs.foldl (merge_step_utts prep) st).cur = some c →
          (rs.foldl (merge_step_utts prep) st).flushed.getLast? = some last →
          last.1 ≠ c) := by
  induction rs with
  | nil => intro st h1 h2 h3; exact ⟨h1, h2, h3⟩
  | cons r rest ih =>
    intro st h1 h2 h3
    rw [List.foldl_cons]
    by_cases hk : prep r.text = "" ∨ r.speaker = "ERROR"
    · rw [merge_step_utts_skip prep st r hk]
      exact ih st h1 h2 h3
    · obtain ⟨fl, cur, utt⟩ := st
      cases cur with
      | none =>
        have hfl : fl = [] := h2 rfl
        rw [merge_step_utts_kept_none prep _ _ r hk]
        apply ih
        · exact h1
        · intro hc; simp at hc
        · intro c last hc hlast
          rw [hfl] at hlast
          simp at hlast
      | some c0 =>
        rw [merge_step_utts_kept_some prep _ _ c0 r hk]
        by_cases heq : r.speaker = c0
        · rw [if_pos heq]
          apply ih
          · exact h1
          · intro hc; simp at hc
          · intro c last hc hlast
            simp only at hc hlast
            injection hc with hc
            exact h3 c last (by rw [hc]) hlast
        · rw [if_neg heq]
          apply ih
          · simp only
            rw [List.chain'_append]
            refine ⟨h1, List.chain'_singleton _, ?_⟩
            intro x hx y hy
            simp only [List.head?_cons, Option.mem_def, Option.some.injEq] at hy
            rw [← hy]
            exact h3 c0 x rfl (by simpa using hx)
          · intro hc; simp at hc
          · intro c last hc hlast
            simp only at hc hlast
            injection hc with hc
            rw [List.getLast?_concat] at hlast
            injection hlast with hlast
            rw [← hlast, ← hc]
            exact fun hcc => heq hcc.symm

/-- C10: in both merge implementations, no two consecutive flushed
utterances carry the same speaker label — an utterance is flushed only when
a kept unit's speaker differs from the accumulator's — and the rendered
transcript is exactly the stripped rendering of that utterance list, so each
rendered line's speaker differs from the previous line's. -/
theorem c10_no_consecutive_same_speaker (prep : String → String) (rs : List TSeg) :
    List.Chain' (fun a b : String × String => a.1 ≠ b.1) (merge_utts prep rs) ∧
    merge_fold prep rs = strip (render_lines (merge_utts prep rs)) := by
  refine ⟨?_, merge_fold_eq_render prep rs⟩
  unfold merge_utts
  have h := ghost_fold_invariant prep rs ⟨[], none, ""⟩
    (List.chain'_nil) (fun _ => rfl) (by intro c last hc hlast; simp at hlast)
  obtain ⟨h1, h2, h3⟩ := h
  generalize hg : rs.foldl (merge_step_utts prep) ⟨[], none, ""⟩ = g at h1 h2 h3
  obtain ⟨fl, cur, utt⟩ := g
  cases cur with
  | none => exact h1
  | some c =>
    unfold merge_utts_finish
    dsimp only
    by_cases hcond : c ≠ "" ∧ strip utt ≠ ""
    · rw [if_pos hcond]
      rw [List.chain'_append]
      refine ⟨h1, List.chain'_singleton _, ?_⟩
      intro x hx y hy
      simp only [List.head?_cons, Option.mem_def, Option.some.injEq] at hy
      rw [← hy]
      exact h3 c x rfl (by simpa using hx)
    · rw [if_neg hcond]
      exact h1

/-! ### Claim C7 — the segmenter -/

/-- C7: the segmenter clips each support interval to `[0, duration]`, emits
nothing when the clipped interval is empty, and returns parallel lists of
equal length whose every boundary satisfies `0 ≤ start < end ≤ duration`. -/
theorem c7_segmenter {α : Type} (conv : ℕ → ℕ → Option α) (audioMs : ℕ)
    (support : List (ℚ × ℚ)) :
    (segment_audio_from_diarization conv audioMs support).1.length =
      (segment_audio_from_diarization conv audioMs support).2.length ∧
    ∀ p ∈ (segment_audio_from_diarization conv audioMs support).2,
      0 ≤ p.1 ∧ p.1 < p.2 ∧ p.2 ≤ (audioMs : ℚ) / 1000 := by
  induction support with
  | nil =>
    refine ⟨rfl, ?_⟩
    intro p hp
    simp [segment_audio_from_diarization] at hp
  | cons q rest ih =>
    obtain ⟨s0, e0⟩ := q
    simp only [segment_audio_from_diarization]
    by_cases h1 : min ((audioMs : ℚ) / 1000) e0 ≤ max 0 s0
    · rw [if_pos h1]
      exact ih
    · rw [if_neg h1]
      by_cases h2 : min (⌊min ((audioMs : ℚ) / 1000) e0 * 1000⌋.toNat) audioMs -
          min (⌊max 0 s0 * 1000⌋.toNat) audioMs = 0
      · rw [if_pos h2]
        exact ih
      · rw [if_neg h2]
        cases hc : conv (⌊max 0 s0 * 1000⌋.toNat)
            (⌊min ((audioMs : ℚ) / 1000) e0 * 1000⌋.toNat) with
        | none => exact ih
        | some seg =>
          refine ⟨?_, ?_⟩
          · simp only [List.length_cons]
            rw [ih.1]
          · intro p hp
            rcases List.mem_cons.mp hp with rfl | hmem
            · exact ⟨le_max_left 0 s0, not_le.mp h1, min_le_left _ _⟩
            · exact ih.2 p hmem

theorem c7_witness :
    (segment_audio_from_diarization (fun a b : ℕ => some (a, b)) 10000
        [((-1 : ℚ), 3)]).1.length =
      (segment_audio_from_diarization (fun a b : ℕ => some (a, b)) 10000
        [((-1 : ℚ), 3)]).2.length ∧
    (0 : ℚ) ≤ 0 ∧ (0 : ℚ) < 3 ∧ (3 : ℚ) ≤ ((10000 : ℕ) : ℚ) / 1000 := by
  have hseg : segment_audio_from_diarization (fun a b : ℕ => some (a, b)) 10000
      [((-1 : ℚ), 3)] = ([(0, 3000)], [((0 : ℚ), (3 : ℚ))]) := by
    simp only [segment_audio_from_diarization]
    rw [show max (0 : ℚ) (-1) = 0 from max_eq_left (by norm_num)]
    rw [show min (((10000 : ℕ) : ℚ) / 1000) 3 = 3 from min_eq_right (by norm_num)]
    rw [if_neg (by norm_num : ¬ (3 : ℚ) ≤ 0)]
    rw [show (0 : ℚ) * 1000 = 0 from by norm_num, Int.floor_zero]
    rw [show (3 : ℚ) * 1000 = ((3000 : ℕ) : ℚ) from by norm_num, Int.floor_natCast]
    rw [show ((0 : ℤ).toNat) = 0 from rfl,
      show (((3000 : ℕ) : ℤ)).toNat = 3000 from rfl]
    rw [if_neg (by decide : ¬ (min 3000 10000 - min 0 10000 = 0))]
  refine ⟨(c7_segmenter _ 10000 _).1,
    (c7_segmenter (fun a b : ℕ => some (a, b)) 10000 [((-1 : ℚ), 3)]).2
      ((0 : ℚ), (3 : ℚ)) ?_⟩
  rw [hseg]
  exact List.mem_cons_self _ _

/-! ### A surviving unit keeps the merge non-empty -/

theorem hasNonWS_ne_empty (s : String) (h : hasNonWS s) : s ≠ "" := by
  obtain ⟨c, hc, -⟩ := h
  rw [string_ne_empty_iff]
  intro hd
  rw [hd] at hc
  simp at hc

theorem merge_live_step (prep : String → String) (st : MState) (r : TSeg)
    (h : merge_live st) : merge_live (merge_step prep st r) := by
  by_cases hk : prep r.text = "" ∨ r.speaker = "ERROR"
  · rw [merge_step_skip prep st r hk]
    exact h
  · obtain ⟨A, cur, U⟩ := st
    cases cur with
    | none =>
      rw [merge_step_kept_none prep A U r hk]
      rcases h with hacc | ⟨c, hc, -, -⟩
      · exact Or.inl hacc
      · simp at hc
    | some c =>
      rw [merge_step_kept_some prep A U c r hk]
      by_cases heq : r.speaker = c
      · rw [if_pos heq]
        rcases h with hacc | ⟨c', hc', hne', hutt'⟩
        · exact Or.inl hacc
        · injection hc' with hc'
          exact Or.inr ⟨c, rfl, hc' ▸ hne',
            hasNonWS_append_left _ _ (hasNonWS_append_left _ _ hutt')⟩
      · rw [if_neg heq]
        rcases h with hacc | ⟨c', hc', hne', hutt'⟩
        · exact Or.inl (hasNonWS_append_left _ _ (hasNonWS_append_left _ _
            (hasNonWS_append_left _ _ (hasNonWS_append_left _ _ hacc))))
        · exact Or.inl (hasNonWS_append_left _ _ (hasNonWS_append_right _ _
            (hasNonWS_strip _ hutt')))

theorem merge_live_establish (prep : String → String) (st : MState) (r : TSeg)
    (h1 : hasNonWS (prep r.text)) (h2 : r.speaker ≠ "ERROR") (h3 : r.speaker ≠ "") :
    merge_live (merge_step prep st r) := by
  have hk : ¬(prep r.text = "" ∨ r.speaker = "ERROR") := by
    rintro (hk | hk)
    · exact hasNonWS_ne_empty _ h1 hk
    · exact h2 hk
  obtain ⟨A, cur, U⟩ := st
  cases cur with
  | none =>
    rw [merge_step_kept_none prep A U r hk]
    exact Or.inr ⟨r.speaker, rfl, h3,
      hasNonWS_append_left _ _ (hasNonWS_append_right _ _ h1)⟩
  | some c =>
    rw [merge_step_kept_some prep A U c r hk]
    by_cases heq : r.speaker = c
    · rw [if_pos heq]
      exact Or.inr ⟨c, rfl, heq ▸ h3,
        hasNonWS_append_left _ _ (hasNonWS_append_right _ _ h1)⟩
    · rw [if_neg heq]
      exact Or.inr ⟨r.speaker, rfl, h3, hasNonWS_append_left _ _ h1⟩

theorem merge_live_foldl (prep : String → String) (rs : List TSeg) :
    ∀ st, merge_live st → merge_live (rs.foldl (merge_step prep) st) := by
  induction rs with
  | nil => intro st h; exact h
  | cons r rest ih =>
    intro st h
    rw [List.foldl_cons]
    exact ih _ (merge_live_step prep st r h)

theorem merge_finish_ne_empty (st : MState) (h : merge_live st) :
    merge_finish st ≠ "" := by
  obtain ⟨A, cur, U⟩ := st
  cases cur with
  | none =>
    rcases h with hacc | ⟨c, hc, -, -⟩
    · exact (strip_ne_empty_iff A).mpr hacc
    · simp at hc
  | some c =>
    unfold merge_finish
    dsimp only
    by_cases hcond : c ≠ "" ∧ strip U ≠ ""
    · rw [if_pos hcond]
      apply (strip_ne_empty_iff _).mpr
      rcases h with hacc | ⟨c', -, -, hutt'⟩
      · exact hasNonWS_append_left _ _ (hasNonWS_append_left _ _
          (hasNonWS_append_left _ _ (hasNonWS_append_left _ _ hacc)))
      · exact hasNonWS_append_left _ _ (hasNonWS_append_right _ _
          (hasNonWS_strip _ hutt'))
    · rw [if_neg hcond]
      rcases h with hacc | ⟨c', hc', hne', hutt'⟩
      · exact (strip_ne_empty_iff A).mpr hacc
      · injection hc' with hc'
        rcases not_and_or.mp hcond with h' | h'
        · exact absurd (hc' ▸ hne') h'
        · exact absurd ((strip_ne_empty_iff U).mpr hutt') h'

/-- If some unit survives the merge's skip test with a usable (non-blank)
prepared text and a non-empty, non-"ERROR" speaker, the merged transcript is
non-empty. -/
theorem merge_fold_ne_empty (prep : String → String) (rs : List TSeg) (u : TSeg)
    (hu : u ∈ rs) (h1 : hasNonWS (prep u.text)) (h2 : u.speaker ≠ "ERROR")
    (h3 : u.speaker ≠ "") : merge_fold prep rs ≠ "" := by
  obtain ⟨l1, l2, rfl⟩ := List.append_of_mem hu
  unfold merge_fold
  rw [List.foldl_append, List.foldl_cons]
  exact merge_finish_ne_empty _
    (merge_live_foldl prep l2 _ (merge_live_establish prep _ u h1 h2 h3))

/-! ### Claim C8 — fatal errors vs. empty success -/

/-- C8: each pipeline variant returns its error value exactly on the fatal
conditions (pipeline not loaded, audio file missing, model missing,
diarization returning no result, audio-tensor load failure), and a
successful diarization with zero turns yields the successful empty result
(`""` resp. `([], None)`), not an error. -/
theorem c8_fatal_error_iff {α : Type} (env : Env α) :
    (diarize_and_transcribe env = none ↔ fatal_condition env) ∧
    ((diarize_and_transcribe_audio_segments env).1 = none ↔ fatal_condition env) ∧
    ((diarize_and_transcribe_audio_segments env).2 ≠ none ↔ fatal_condition env) ∧
    (env.diarizeResult = some [] → ¬ fatal_condition env →
      diarize_and_transcribe env = some "" ∧
      diarize_and_transcribe_audio_segments env = (some [], none)) := by
  obtain ⟨p, a, m, dr, al, cv, tr, lk⟩ := env
  cases p with
  | false =>
    simp [diarize_and_transcribe, diarize_and_transcribe_audio_segments,
      fatal_condition]
  | true =>
    cases a with
    | false =>
      simp [diarize_and_transcribe, diarize_and_transcribe_audio_segments,
        fatal_condition]
    | true =>
      cases m with
      | false =>
        simp [diarize_and_transcribe, diarize_and_transcribe_audio_segments,
          fatal_condition]
      | true =>
        cases dr with
        | none =>
          simp [diarize_and_transcribe, diarize_and_transcribe_audio_segments,
            fatal_condition]
        | some diar =>
          cases al with
          | none =>
            simp [diarize_and_transcribe, diarize_and_transcribe_audio_segments,
              fatal_condition]
          | some ms =>
            by_cases hempty : (segment_audio_from_diarization cv ms
                (timeline_support diar)).1.isEmpty = true
            · simp [diarize_and_transcribe, diarize_and_transcribe_audio_segments,
                fatal_condition, hempty]
            · refine ⟨?_, ?_, ?_, ?_⟩
              · simp [diarize_and_transcribe, fatal_condition, hempty]
              · simp [diarize_and_transcribe_audio_segments, fatal_condition, hempty]
              · simp [diarize_and_transcribe_audio_segments, fatal_condition, hempty]
              · intro heq _
                exfalso
                simp only [Option.some.injEq] at heq
                subst heq
                exact hempty rfl

theorem c8_witness :
    diarize_and_transcribe envEmpty = some "" ∧
    diarize_and_transcribe_audio_segments envEmpty = (some [], none) :=
  (c8_fatal_error_iff envEmpty).2.2.2 rfl
    (by simp [fatal_condition, envEmpty])

/-! ### Claim C9 — per-segment failures are absorbed -/

theorem transcribe_segments_length {α : Type} (env : Env α)
    (diarization : List Turn) (boundaries : List (ℚ × ℚ)) :
    (transcribe_segments env diarization boundaries).length = boundaries.length := by
  unfold transcribe_segments
  rw [List.length_map, List.enum_length]

theorem transcribe_segments_service_length {α : Type} (env : Env α)
    (diarization : List Turn) (boundaries : List (ℚ × ℚ)) :
    (transcribe_segments_service env diarization boundaries).length =
      boundaries.length := by
  unfold transcribe_segments_service
  rw [List.length_map, List.enum_length]

theorem transcribe_segments_getElem? {α : Type} (env : Env α)
    (diarization : List Turn) (boundaries : List (ℚ × ℚ)) (i : ℕ) (s e : ℚ)
    (h : boundaries[i]? = some (s, e)) :
    (transcribe_segments env diarization boundaries)[i]? = some
      (match env.transcribe i with
        | none => ⟨"ERROR", "[Transcription Error]", s, e⟩
        | some result =>
          ⟨if env.lookupRaises i then "UNKNOWN"
            else speaker_for_segment diarization s e, result, s, e⟩) := by
  unfold transcribe_segments
  rw [List.getElem?_map, List.getElem?_enum, h]
  rfl

theorem speaker_for_segment_ne (turns : List Turn) (s e : ℚ)
    (hlab : ∀ t ∈ turns, t.speaker ≠ "ERROR" ∧ t.speaker ≠ "") :
    speaker_for_segment turns s e ≠ "ERROR" ∧ speaker_for_segment turns s e ≠ "" := by
  by_cases hf : turns.filter (turn_intersects s e) = []
  · rw [speaker_for_segment_of_no_overlap _ _ _ hf]
    exact ⟨by decide, by decide⟩
  · obtain ⟨t, htm, -, heq, -⟩ := speaker_for_segment_min turns s e hf
    rw [heq]
    exact hlab t htm

/-- The lengths half of the segmenter contract, reusable below. -/
theorem segment_audio_lengths {α : Type} (conv : ℕ → ℕ → Option α) (audioMs : ℕ)
    (support : List (ℚ × ℚ)) :
    (segment_audio_from_diarization conv audioMs support).1.length =
      (segment_audio_from_diarization conv audioMs support).2.length := by
  induction support with
  | nil => rfl
  | cons q rest ih =>
    obtain ⟨s0, e0⟩ := q
    simp only [segment_audio_from_diarization]
    by_cases h1 : min ((audioMs : ℚ) / 1000) e0 ≤ max 0 s0
    · rw [if_pos h1]; exact ih
    · rw [if_neg h1]
      by_cases h2 : min (⌊min ((audioMs : ℚ) / 1000) e0 * 1000⌋.toNat) audioMs -
          min (⌊max 0 s0 * 1000⌋.toNat) audioMs = 0
      · rw [if_pos h2]; exact ih
      · rw [if_neg h2]
        cases conv (⌊max 0 s0 * 1000⌋.toNat)
            (⌊min ((audioMs : ℚ) / 1000) e0 * 1000⌋.toNat) with
        | none => exact ih
        | some seg =>
          simp only [List.length_cons]
          rw [ih]

/-- C9: a failure on one segment never aborts the run: every segment yields
exactly one unit (both pipeline variants); a raised transcription yields the
"ERROR"/placeholder unit for that segment only; a raised speaker lookup
degrades that unit's speaker to "UNKNOWN"; and as long as one segment's
transcription succeeds with non-blank text, the pipeline returns a non-empty
transcript (so only all-failing units can empty the result). -/
theorem c9_per_segment_failure {α : Type} (env : Env α) (turns : List Turn)
    (audioMs : ℕ) (boundaries : List (ℚ × ℚ)) (results : List TSeg)
    (hp : env.pipelineLoaded = true) (ha : env.audioExists = true)
    (hm : env.modelLoaded = true)
    (hd : env.diarizeResult = some turns) (hl : env.audioLoad = some audioMs)
    (hb : boundaries =
      (segment_audio_from_diarization env.conv audioMs (timeline_support turns)).2)
    (hr : results = transcribe_segments env turns boundaries)
    (hlab : ∀ t ∈ turns, t.speaker ≠ "ERROR" ∧ t.speaker ≠ "") :
    results.length = boundaries.length ∧
    (transcribe_segments_service env turns boundaries).length =
      boundaries.length ∧
    (∀ i s e, boundaries[i]? = some (s, e) → env.transcribe i = none →
      results[i]? = some ⟨"ERROR", "[Transcription Error]", s, e⟩) ∧
    (∀ i s e t, boundaries[i]? = some (s, e) → env.transcribe i = some t →
      env.lookupRaises i = true → results[i]? = some ⟨"UNKNOWN", t, s, e⟩) ∧
    (∀ i s e t, boundaries[i]? = some (s, e) → env.transcribe i = some t →
      hasNonWS t →
      ∃ out, diarize_and_transcribe env = some out ∧ out ≠ "") := by
  subst hr
  refine ⟨transcribe_segments_length env turns boundaries,
    transcribe_segments_service_length env turns boundaries, ?_, ?_, ?_⟩
  · intro i s e hib htr
    rw [transcribe_segments_getElem? env turns boundaries i s e hib, htr]
  · intro i s e t hib htr hlk
    rw [transcribe_segments_getElem? env turns boundaries i s e hib, htr]
    simp [hlk]
  · intro i s e t hib htr ht
    -- The i-th unit of the transcription loop.
    have hunit := transcribe_segments_getElem? env turns boundaries i s e hib
    rw [htr] at hunit
    have hmem := List.getElem?_mem hunit
    -- The merged transcript contains that unit's text.
    have hspk : (if env.lookupRaises i then "UNKNOWN"
        else speaker_for_segment turns s e) ≠ "ERROR" ∧
        (if env.lookupRaises i then "UNKNOWN"
          else speaker_for_segment turns s e) ≠ "" := by
      by_cases hlk : env.lookupRaises i
      · rw [if_pos hlk]
        exact ⟨by decide, by decide⟩
      · rw [if_neg hlk]
        exact speaker_for_segment_ne turns s e hlab
    have hne : format_final_transcription
        (transcribe_segments env turns boundaries) ≠ "" := by
      apply merge_fold_ne_empty strip _ _ hmem _ hspk.1 hspk.2
      exact hasNonWS_strip _ ht
    -- The pipeline reaches and returns the merged transcript.
    have hbne : boundaries ≠ [] :=
      List.ne_nil_of_mem (List.getElem?_mem hib)
    have hsne : ¬ (segment_audio_from_diarization env.conv audioMs
        (timeline_support turns)).1.isEmpty = true := by
      rw [List.isEmpty_iff]
      intro hnil
      apply hbne
      rw [hb, ← List.length_eq_zero]
      rw [← segment_audio_lengths env.conv audioMs (timeline_support turns), hnil]
      rfl
    refine ⟨format_final_transcription
      (transcribe_segments env turns boundaries), ?_, hne⟩
    obtain ⟨p, a, m, dr, al, cv, tr, lk⟩ := env
    simp only at hp ha hm hd hl hb ⊢
    subst hp; subst ha; subst hm; subst hd; subst hl
    simp only [diarize_and_transcribe]
    rw [if_neg (by simp), if_neg (by simp), if_neg (by simp)]
    simp only at hsne ⊢
    rw [if_neg hsne, hb]

theorem c9_witness :
    (transcribe_segments envW [⟨"S", 0, 2⟩] [((0 : ℚ), 2)]).length =
      ([((0 : ℚ), 2)] : List (ℚ × ℚ)).length ∧
    ∃ out, diarize_and_transcribe envW = some out ∧ out ≠ "" := by
  have hseg : segment_audio_from_diarization envW.conv 10000
      (timeline_support [⟨"S", 0, 2⟩]) = ([()], [((0 : ℚ), 2)]) := by
    show segment_audio_from_diarization envW.conv 10000 [((0 : ℚ), 2)] = _
    simp only [segment_audio_from_diarization]
    rw [max_self]
    rw [show min (((10000 : ℕ) : ℚ) / 1000) 2 = 2 from min_eq_right (by norm_num)]
    rw [if_neg (by norm_num : ¬ (2 : ℚ) ≤ 0)]
    rw [show (0 : ℚ) * 1000 = 0 from by norm_num, Int.floor_zero]
    rw [show (2 : ℚ) * 1000 = ((2000 : ℕ) : ℚ) from by norm_num, Int.floor_natCast]
    rw [show ((0 : ℤ).toNat) = 0 from rfl,
      show (((2000 : ℕ) : ℤ)).toNat = 2000 from rfl]
    rw [if_neg (by decide : ¬ (min 2000 10000 - min 0 10000 = 0))]
    rfl
  have h := c9_per_segment_failure envW [⟨"S", 0, 2⟩] 10000 [((0 : ℚ), 2)]
    (transcribe_segments envW [⟨"S", 0, 2⟩] [((0 : ℚ), 2)])
    rfl rfl rfl rfl rfl (by rw [hseg]) rfl (by decide)
  refine ⟨h.1, ?_⟩
  exact h.2.2.2.2 0 0 2 "hello" rfl rfl ⟨'h', by decide, by decide⟩

end MeetingSTT
